import Mathlib

/-!
# Update verification (`src/qt/updater.cpp`)

A shallow embedding of the `Updater` class: the two `verifySignature`
overloads, `verifyParseSignedHahes`, `verifySignaturesAndHashSum`,
`fetchSignedHash`, `getHash` and `parseShasumOutput`.

* C++ exceptions become `Except UpdaterError`.
* The in/out parameter `QPair<QString, QString> &signers` becomes explicit state
  passing: a function that receives it returns the pair as the caller sees it
  afterwards, next to its result, on success and on failure alike.
* `QByteArray` and `std::string` are lists of bytes, `QString` is a list of
  characters (well-formed text; the null / empty distinction of Qt is not kept).
* Code outside the repository (the OpenPGP parser and verifier, SHA-256, the
  UTF-8 decoder of Qt, the HTTP client) is taken as a parameter, `Primitives`.
-/

namespace Updater

/-! ## Data model -/

/-- Bytes of a `QByteArray`, `std::string` or `epee::span<const uint8_t>`. -/
abbrev QByteArray := List Nat

/-- Characters of a `QString` or `QStringRef`. -/
abbrev QString := List Char

/-- The `signers` pair, `QPair<QString, QString>`. -/
abbrev Signers := QString × QString

/-- The exceptions the updater can raise: one constructor for each
`std::runtime_error` thrown in `updater.cpp`, and two for the exceptions raised
inside the OpenPGP library and the HTTP client, which pass through unchanged. -/
inductive UpdaterError where
  | dnsHashMismatch
  | signersIdentical
  | hashSumMismatch
  | hashNotFound
  | notSignedByMaintainer
  | openpgp (what : String)
  | network (what : String)
deriving DecidableEq, Repr

/-- The message carried by the exception. -/
def UpdaterError.what : UpdaterError → String
  | .dnsHashMismatch => "DNS hash mismatch"
  | .signersIdentical => "both signatures were generated by the same person"
  | .hashSumMismatch => "hash sum mismatch"
  | .hashNotFound => "hash not found"
  | .notSignedByMaintainer => "not signed by a maintainer"
  | .openpgp w => w
  | .network w => w

/-- An `openpgp::public_key_block`: the keys of one maintainer and the user id
of the block. -/
structure public_key_block (Key : Type) where
  user_id : QByteArray
  keys : List Key

/-- The library code the updater calls, as parameters.
`message_armored` is the constructor of `openpgp::message_armored` followed by
its conversion to a span (the signed plaintext); `from_armored` and
`from_buffer` are the two factories of `openpgp::signature_rsa`; `verify` is
`signature_rsa::verify`; `sha256sum` is `tools::sha256sum`; `fromUtf8` is
`QString::fromUtf8`; `get` is `Network::get`. -/
structure Primitives (Key Sig : Type) where
  message_armored : QByteArray → Except String QByteArray
  from_armored : QByteArray → Except String Sig
  from_buffer : QByteArray → Except String Sig
  verify : Sig → QByteArray → Key → Bool
  sha256sum : QByteArray → QByteArray
  fromUtf8 : QByteArray → QString
  get : String → Except String QByteArray

/-! ## Qt string operations used by `parseShasumOutput` -/

/-- `QChar::isSpace`: the ASCII white space U+0009..U+000D and U+0020, then
U+0085, U+00A0 and the characters of the Unicode separator categories. -/
def isSpace (c : Char) : Bool :=
  let n := c.toNat
  n == 0x20 || (0x09 ≤ n && n ≤ 0x0d) || n == 0x85 || n == 0xa0 || n == 0x1680 ||
    (0x2000 ≤ n && n ≤ 0x200a) || n == 0x2028 || n == 0x2029 || n == 0x202f ||
    n == 0x205f || n == 0x3000

/-- `QString::splitRef("\n")`, empty parts kept. -/
def splitRef : QString → List QString
  | [] => [[]]
  | c :: cs =>
    if c = '\n' then [] :: splitRef cs
    else
      match splitRef cs with
      | l :: ls => (c :: l) :: ls
      | [] => [[c]]

/-- `QStringRef::trimmed`: white space is removed from the end, then from the
start. -/
def trimmed (s : QString) : QString :=
  (s.rdropWhile isSpace).dropWhile isSpace

/-- `QStringRef::endsWith`, case sensitive. -/
def endsWith (s t : QString) : Bool := t.isSuffixOf s

/-- `QStringRef::startsWith`, case sensitive. -/
def startsWith (s t : QString) : Bool := t.isPrefixOf s

/-- `QStringRef::indexOf(QChar)`: the first position of `c`; `none` is `-1`. -/
def indexOf (c : Char) : QString → Option Nat
  | [] => none
  | d :: ds => if d = c then some 0 else (indexOf c ds).map (· + 1)

/-- `QStringRef::lastIndexOf(QChar)`: the last position of `c`; `none` is `-1`. -/
def lastIndexOf (c : Char) : QString → Option Nat
  | [] => none
  | d :: ds =>
    match lastIndexOf c ds with
    | some i => some (i + 1)
    | none => if d = c then some 0 else none

/-- `QStringRef::left(n)`. -/
def left (s : QString) (n : Nat) : QString := s.take n

/-- `QStringRef::right(n)`: the last `n` characters. -/
def right (s : QString) (n : Nat) : QString := s.drop (s.length - n)

/-- The UTF-8 encoding of one character. -/
def utf8Encode (c : Char) : QByteArray :=
  let n := c.toNat
  if n < 0x80 then [n]
  else if n < 0x800 then [0xc0 + n / 64, 0x80 + n % 64]
  else if n < 0x10000 then [0xe0 + n / 4096, 0x80 + n / 64 % 64, 0x80 + n % 64]
  else [0xf0 + n / 262144, 0x80 + n / 4096 % 64, 0x80 + n / 64 % 64, 0x80 + n % 64]

/-- `QStringRef::toUtf8`. -/
def toUtf8 (s : QString) : QByteArray := s.flatMap utf8Encode

/-- `QtMiscUtils::fromHex`: the value of a hexadecimal digit; `none` is `-1`. -/
def fromHexDigit (c : Nat) : Option Nat :=
  if 48 ≤ c ∧ c ≤ 57 then some (c - 48)
  else if 65 ≤ c ∧ c ≤ 70 then some (c - 65 + 10)
  else if 97 ≤ c ∧ c ≤ 102 then some (c - 97 + 10)
  else none

/-- The loop of `QByteArray::fromHex`. It runs from the last byte to the first,
so the bytes after `ch` are processed before `ch`. The state is the flag
`odd_digit` and the bytes written so far; a byte that is no hexadecimal digit
is skipped. -/
def fromHexLoop : QByteArray → Bool × QByteArray
  | [] => (true, [])
  | ch :: rest =>
    let st := fromHexLoop rest
    match fromHexDigit ch with
    | none => st
    | some tmp =>
      if st.1 then (false, tmp :: st.2)
      else
        match st.2 with
        | b :: bs => (true, (b ||| (tmp <<< 4)) :: bs)
        | [] => (true, [])

/-- `QByteArray::fromHex`. -/
def fromHex (hexEncoded : QByteArray) : QByteArray := (fromHexLoop hexEncoded).2

/-! ## The updater -/

/-- The loop body of `parseShasumOutput`, over the lines still to be read. -/
def parseLines (filename : QString) : List QString → Except UpdaterError QByteArray
  | [] => .error .hashNotFound
  | line :: rest =>
    let trimmed := trimmed line
    if endsWith trimmed filename then
      match indexOf ' ' trimmed with
      | some pos => .ok (fromHex (toUtf8 (left trimmed pos)))
      | none => parseLines filename rest
    else if startsWith trimmed filename then
      match lastIndexOf ' ' trimmed with
      | some pos => .ok (fromHex (toUtf8 (right trimmed (trimmed.length - pos))))
      | none => parseLines filename rest
    else parseLines filename rest

/-- `Updater::parseShasumOutput`. -/
def parseShasumOutput (message filename : QString) : Except UpdaterError QByteArray :=
  parseLines filename (splitRef message)

section
variable {Key Sig : Type}

/-- The user id as the caller receives it:
`QString::fromStdString(maintainer.user_id())`. -/
def identity (P : Primitives Key Sig) (m : public_key_block Key) : QString :=
  P.fromUtf8 m.user_id

/-- The inner loop of `verifySignature`: some key of the block validates. -/
def anyKeyVerifies (P : Primitives Key Sig) (data : QByteArray) (signature : Sig)
    (m : public_key_block Key) : Bool :=
  m.keys.any (fun public_key => P.verify signature data public_key)

/-- `Updater::verifySignature(span, signature_rsa)`: the maintainers are scanned
in the order of `m_maintainers`, and the first one holding a validating key is
returned. -/
def verifySignature (P : Primitives Key Sig) :
    List (public_key_block Key) → QByteArray → Sig → Except UpdaterError QString
  | [], _, _ => .error .notSignedByMaintainer
  | maintainer :: rest, data, signature =>
    if anyKeyVerifies P data signature maintainer then .ok (identity P maintainer)
    else verifySignature P rest data signature

/-- `QString(const QByteArray &)`: the bytes up to the first zero byte, decoded
as UTF-8. -/
def qstringOfBytes (P : Primitives Key Sig) (a : QByteArray) : QString :=
  P.fromUtf8 (a.takeWhile (· != 0))

/-- `Updater::verifySignature(QByteArray, QString &signer)`. The second
component is `signer` after the call. -/
def verifySignatureArmored (P : Primitives Key Sig) (m_maintainers : List (public_key_block Key))
    (armoredSignedMessage : QByteArray) (signer : QString) :
    Except UpdaterError QString × QString :=
  match P.message_armored armoredSignedMessage with
  | .error e => (.error (.openpgp e), signer)
  | .ok message =>
    match P.from_armored armoredSignedMessage with
    | .error e => (.error (.openpgp e), signer)
    | .ok signature =>
      match verifySignature P m_maintainers message signature with
      | .error e => (.error e, signer)
      | .ok id => (.ok (qstringOfBytes P message), id)

/-- `Updater::verifyParseSignedHahes`. The second component is `signers` after
the call. -/
def verifyParseSignedHahes (P : Primitives Key Sig) (m_maintainers : List (public_key_block Key))
    (armoredSignedHashes secondDetachedSignature : QByteArray) (binaryFilename : QString)
    (signers : Signers) : Except UpdaterError QByteArray × Signers :=
  match verifySignatureArmored P m_maintainers armoredSignedHashes signers.1 with
  | (.error e, first) => (.error e, (first, signers.2))
  | (.ok signedMessage, first) =>
    match P.from_buffer secondDetachedSignature with
    | .error e => (.error (.openpgp e), (first, signers.2))
    | .ok signature =>
      match verifySignature P m_maintainers armoredSignedHashes signature with
      | .error e => (.error e, (first, signers.2))
      | .ok second =>
        if first = second then (.error .signersIdentical, (first, second))
        else (parseShasumOutput signedMessage binaryFilename, (first, second))

/-- `Updater::getHash`: a buffer of `sizeof(crypto::hash)` = 32 zero bytes that
`tools::sha256sum` writes the digest into. -/
def getHash (P : Primitives Key Sig) (data : QByteArray) : QByteArray :=
  (P.sha256sum data ++ List.replicate 32 0).take 32

/-- `Updater::verifySignaturesAndHashSum`; `signers` is a local, default
constructed pair. -/
def verifySignaturesAndHashSum (P : Primitives Key Sig)
    (m_maintainers : List (public_key_block Key))
    (armoredSignedHashes secondDetachedSignature : QByteArray) (binaryFilename : QString)
    (binaryData : QByteArray) : Except UpdaterError Signers :=
  match verifyParseSignedHahes P m_maintainers armoredSignedHashes secondDetachedSignature
      binaryFilename ([], []) with
  | (.error e, _) => .error e
  | (.ok signedHash, signers) =>
    let calculatedHash := getHash P binaryData
    if signedHash ≠ calculatedHash then .error .hashSumMismatch
    else .ok signers

/-- The address of the signed list of hashes. -/
def hashesTxtUrl : String := "https://aimonitor.world/downloads/hashes.txt"

/-- The address of the second, detached signature. -/
def hashesTxtSigUrl : String := "https://aimonitor.world/downloads/hashes.txt.sig"

/-- `Updater::fetchSignedHash`. The second component is `signers` after the
call. -/
def fetchSignedHash (P : Primitives Key Sig) (m_maintainers : List (public_key_block Key))
    (binaryFilename : QString) (hashFromDns : QByteArray) (signers : Signers) :
    Except UpdaterError QByteArray × Signers :=
  match P.get hashesTxtUrl with
  | .error e => (.error (.network e), signers)
  | .ok hashesTxt =>
    match P.get hashesTxtSigUrl with
    | .error e => (.error (.network e), signers)
    | .ok hashesTxtSig =>
      match verifyParseSignedHahes P m_maintainers hashesTxt hashesTxtSig binaryFilename
          signers with
      | (.error e, signers) => (.error e, signers)
      | (.ok signedHash, signers) =>
        if signedHash ≠ hashFromDns then (.error .dnsHashMismatch, signers)
        else (.ok signedHash, signers)

end

/-! ## A concrete instance

A small instance of the primitives, on which the theorems below are exercised.
A key is a number; a signature names the key that made it and the data it
signs; an armored message is the signing key followed by the plaintext. -/

/-- The bytes of an ASCII text. -/
def asciiBytes (s : String) : QByteArray := s.toList.map Char.toNat

/-- The signed list of hashes: one line in layout A, the digest `07` 32 times. -/
def demoManifest : QByteArray :=
  asciiBytes ((List.replicate 32 "07").foldr (· ++ ·) "  app.bin\n")

/-- The armored message, signed by key 1. -/
def demoArmored : QByteArray := 1 :: demoManifest

/-- The second signature, by key 3 over the raw bytes of `demoArmored`. -/
def demoDetached : QByteArray := 3 :: demoArmored

/-- A second signature by key 2, held by the maintainer who holds key 1. -/
def demoDetachedSame : QByteArray := 2 :: demoArmored

/-- The instance of the primitives. -/
def demoPrimitives : Primitives Nat (Nat × QByteArray) where
  message_armored a :=
    match a with
    | [] => .error "armored block not found"
    | _ :: message => .ok message
  from_armored a :=
    match a with
    | [] => .error "armored block not found"
    | key :: message => .ok (key, message)
  from_buffer b :=
    match b with
    | [] => .error "signature not found"
    | key :: data => .ok (key, data)
  verify s data key := s.1 == key && s.2 == data
  sha256sum data := List.replicate 32 (data.sum % 256)
  fromUtf8 a := a.map Char.ofNat
  get url :=
    if url = hashesTxtUrl then .ok demoArmored
    else if url = hashesTxtSigUrl then .ok demoDetached
    else .error "failed to fetch"

/-- Two maintainers: the first holds keys 1 and 2, the second key 3. -/
def demoMaintainers : List (public_key_block Nat) :=
  [⟨asciiBytes "alice", [1, 2]⟩, ⟨asciiBytes "bob", [3]⟩]

/-- Two maintainers with a key in common: key 1 is in both blocks. -/
def sharedKeyMaintainers : List (public_key_block Nat) :=
  [⟨asciiBytes "alice", [1]⟩, ⟨asciiBytes "bob", [1, 2]⟩]

/-- The digest announced over DNS for the concrete instance. -/
def demoHash : QByteArray := List.replicate 32 7

section
variable {Key Sig : Type}

/-- The assumption of the design that keys do not collide across identities: no
data and signature are validated by keys of two maintainers whose identities
differ. -/
def keysNonColliding (P : Primitives Key Sig) (ms : List (public_key_block Key)) : Prop :=
  ∀ (data : QByteArray) (signature : Sig), ∀ m ∈ ms, ∀ m' ∈ ms,
    anyKeyVerifies P data signature m = true → anyKeyVerifies P data signature m' = true →
      identity P m = identity P m'

end

/-! ## Hexadecimal text, as the manifest format describes it -/

/-- A hexadecimal digit: `0`–`9`, `A`–`F` or `a`–`f`. -/
def isHexDigit (c : Char) : Bool :=
  let n := c.toNat
  (48 ≤ n && n ≤ 57) || (65 ≤ n && n ≤ 70) || (97 ≤ n && n ≤ 102)

/-- The value of a hexadecimal digit. -/
def hexDigitValue (c : Char) : Nat :=
  let n := c.toNat
  if n ≤ 57 then n - 48 else if n ≤ 70 then n - 55 else n - 87

/-- The bytes that a text of hexadecimal digits encodes: one byte for each pair
of digits, the first digit of the pair being the high half. -/
def hexBytes : QString → QByteArray
  | hi :: lo :: rest => (16 * hexDigitValue hi + hexDigitValue lo) :: hexBytes rest
  | _ => []

/-- A second signature by key 9, which no maintainer holds. -/
def demoDetachedUnknown : QByteArray := 9 :: demoArmored

/-- An armored message signed by key 9, which no maintainer holds. -/
def demoArmoredUnknown : QByteArray := 9 :: demoManifest

section
variable {Key : Type}

/-- The block `m'` is the block `m` with its keys in another order. -/
def keysPermuted (m m' : public_key_block Key) : Prop :=
  m'.user_id = m.user_id ∧ m'.keys.Perm m.keys

/-- The list `ms'` is the list `ms` in another order, each block with its keys
in another order. -/
def reordered (ms ms' : List (public_key_block Key)) : Prop :=
  ∃ mid, List.Forall₂ keysPermuted ms mid ∧ mid.Perm ms'

end

/-- The maintainers of the concrete instance in the other order, the keys of the
first one swapped. -/
def demoMaintainersReordered : List (public_key_block Nat) :=
  [⟨asciiBytes "bob", [3]⟩, ⟨asciiBytes "alice", [2, 1]⟩]

/-- A list of hashes whose digest is cut to two bytes. -/
def demoShortManifest : QByteArray := asciiBytes "0707  app.bin\n"

/-- The armored message of the short list, signed by key 1. -/
def demoShortArmored : QByteArray := 1 :: demoShortManifest

/-- The second signature of the short list, by key 3. -/
def demoShortDetached : QByteArray := 3 :: demoShortArmored

/-- A byte that `QByteArray::fromHex` reads as a hexadecimal digit. -/
def isHexByte (b : Nat) : Bool := (fromHexDigit b).isSome

/-- The text of the lines `pre`, each one closed by a newline. -/
def closedLines (pre : List QString) : QString := pre.flatMap (fun l => l ++ ['\n'])

/-- White space that is no newline, as it may stand around a line. -/
def isPadding (w : QString) : Prop := ∀ c ∈ w, isSpace c = true ∧ c ≠ '\n'

/-- Two lines that differ only in the white space at their start and at their
end: both are a common text with padding around it. -/
def paddedAlike (l l' : QString) : Prop :=
  ∃ core w1 w2 w1' w2', isPadding w1 ∧ isPadding w2 ∧ isPadding w1' ∧ isPadding w2' ∧
    l = w1 ++ core ++ w2 ∧ l' = w1' ++ core ++ w2'

/-! ## Theorems -/

/- The concrete instance holds a digest of 64 characters: evaluating the
updater on it goes deeper than the default limit. -/
set_option maxRecDepth 100000

/-! ### The scan of the maintainers -/

section
variable {Key Sig : Type}

theorem anyKeyVerifies_eq_true (P : Primitives Key Sig) (data : QByteArray) (signature : Sig)
    (m : public_key_block Key) :
    anyKeyVerifies P data signature m = true ↔ ∃ k ∈ m.keys, P.verify signature data k = true := by
  simp [anyKeyVerifies]

theorem anyKeyVerifies_eq_false (P : Primitives Key Sig) (data : QByteArray) (signature : Sig)
    (m : public_key_block Key) :
    anyKeyVerifies P data signature m = false ↔ ∀ k ∈ m.keys, P.verify signature data k = false := by
  simp [anyKeyVerifies]

theorem verifySignature_error (P : Primitives Key Sig) (ms : List (public_key_block Key))
    (data : QByteArray) (signature : Sig) (e : UpdaterError) :
    verifySignature P ms data signature = .error e ↔
      e = .notSignedByMaintainer ∧ ∀ m ∈ ms, anyKeyVerifies P data signature m = false := by
  induction ms with
  | nil =>
    simp only [verifySignature, Except.error.injEq]
    exact ⟨fun h => ⟨h.symm, by simp⟩, fun h => h.1.symm⟩
  | cons m rest ih =>
    by_cases hm : anyKeyVerifies P data signature m = true
    · simp [verifySignature, hm]
    · simp only [Bool.not_eq_true] at hm
      simp [verifySignature, hm, ih]

theorem verifySignature_ok (P : Primitives Key Sig) (ms : List (public_key_block Key))
    (data : QByteArray) (signature : Sig) (id : QString) :
    verifySignature P ms data signature = .ok id ↔
      ∃ pre m post, ms = pre ++ m :: post ∧
        (∀ p ∈ pre, anyKeyVerifies P data signature p = false) ∧
        anyKeyVerifies P data signature m = true ∧ id = identity P m := by
  induction ms with
  | nil => simp [verifySignature]
  | cons m rest ih =>
    by_cases hm : anyKeyVerifies P data signature m = true
    · simp only [verifySignature, hm, if_true, Except.ok.injEq]
      constructor
      · intro h
        exact ⟨[], m, rest, rfl, by simp, hm, h.symm⟩
      · rintro ⟨pre, m', post, hsplit, hpre, -, hid⟩
        cases pre with
        | nil =>
          simp only [List.nil_append, List.cons.injEq] at hsplit
          rw [hid, hsplit.1]
        | cons p pre' =>
          simp only [List.cons_append, List.cons.injEq] at hsplit
          have := hpre p (by simp)
          rw [← hsplit.1, hm] at this
          cases this
    · simp only [Bool.not_eq_true] at hm
      simp only [verifySignature, hm, Bool.false_eq_true, if_false, ih]
      constructor
      · rintro ⟨pre, m', post, hsplit, hpre, hv, hid⟩
        refine ⟨m :: pre, m', post, by simp [hsplit], ?_, hv, hid⟩
        intro p hp
        rcases List.mem_cons.1 hp with rfl | hp
        · exact hm
        · exact hpre p hp
      · rintro ⟨pre, m', post, hsplit, hpre, hv, hid⟩
        cases pre with
        | nil =>
          simp only [List.nil_append, List.cons.injEq] at hsplit
          rw [← hsplit.1, hm] at hv
          cases hv
        | cons p pre' =>
          simp only [List.cons_append, List.cons.injEq] at hsplit
          exact ⟨pre', m', post, hsplit.2, fun q hq => hpre q (by simp [hq]), hv, hid⟩

end

/-! ### Success of the pipeline -/

section
variable {Key Sig : Type}

theorem verifyParseSignedHahes_ok (P : Primitives Key Sig) (ms : List (public_key_block Key))
    (armored detached : QByteArray) (filename : QString) (signers0 signers : Signers)
    (hash : QByteArray) :
    verifyParseSignedHahes P ms armored detached filename signers0 = (.ok hash, signers) ↔
      ∃ message sig1 sig2,
        P.message_armored armored = .ok message ∧ P.from_armored armored = .ok sig1 ∧
        P.from_buffer detached = .ok sig2 ∧
        verifySignature P ms message sig1 = .ok signers.1 ∧
        verifySignature P ms armored sig2 = .ok signers.2 ∧
        signers.1 ≠ signers.2 ∧
        parseShasumOutput (qstringOfBytes P message) filename = .ok hash := by
  obtain ⟨a, b⟩ := signers
  cases h1 : P.message_armored armored with
  | error e => simp [verifyParseSignedHahes, verifySignatureArmored, h1]
  | ok message =>
    cases h2 : P.from_armored armored with
    | error e => simp [verifyParseSignedHahes, verifySignatureArmored, h1, h2]
    | ok sig1 =>
      cases h3 : verifySignature P ms message sig1 with
      | error e => simp [verifyParseSignedHahes, verifySignatureArmored, h1, h2, h3]
      | ok first =>
        cases h4 : P.from_buffer detached with
        | error e => simp [verifyParseSignedHahes, verifySignatureArmored, h1, h2, h3, h4]
        | ok sig2 =>
          cases h5 : verifySignature P ms armored sig2 with
          | error e => simp [verifyParseSignedHahes, verifySignatureArmored, h1, h2, h3, h4, h5]
          | ok second =>
            by_cases heq : first = second
            · subst heq
              simp only [verifyParseSignedHahes, verifySignatureArmored, h1, h2, h3, h4, h5,
                if_true]
              constructor
              · intro h
                injection h with h _
                cases h
              · rintro ⟨m, s1, s2, hm, hs1, hs2, hf, hs, hne, -⟩
                cases hm; cases hs1; cases hs2
                rw [h3] at hf
                rw [h5] at hs
                cases hf; cases hs
                exact absurd rfl hne
            · simp only [verifyParseSignedHahes, verifySignatureArmored, h1, h2, h3, h4, h5, heq,
                if_false]
              constructor
              · intro h
                injection h with hp hs
                cases hs
                exact ⟨message, sig1, sig2, rfl, rfl, rfl, h3, h5, heq, hp⟩
              · rintro ⟨m, s1, s2, hm, hs1, hs2, hf, hs, hne, hp⟩
                cases hm; cases hs1; cases hs2
                rw [h3] at hf
                rw [h5] at hs
                cases hf; cases hs
                rw [hp]

end

section
variable {Key Sig : Type}

theorem verifySignaturesAndHashSum_ok (P : Primitives Key Sig) (ms : List (public_key_block Key))
    (armored detached : QByteArray) (filename : QString) (binary : QByteArray)
    (signers : Signers) :
    verifySignaturesAndHashSum P ms armored detached filename binary = .ok signers ↔
      verifyParseSignedHahes P ms armored detached filename ([], []) =
        (.ok (getHash P binary), signers) := by
  unfold verifySignaturesAndHashSum
  rcases h : verifyParseSignedHahes P ms armored detached filename ([], []) with ⟨r, s⟩
  cases r with
  | error e => simp
  | ok hash =>
    by_cases hh : hash = getHash P binary
    · simp [hh]
    · simp [hh]

theorem verifySignaturesAndHashSum_mismatch (P : Primitives Key Sig)
    (ms : List (public_key_block Key)) (armored detached : QByteArray) (filename : QString)
    (binary hash : QByteArray) (signers : Signers)
    (h : verifyParseSignedHahes P ms armored detached filename ([], []) = (.ok hash, signers))
    (hne : hash ≠ getHash P binary) :
    verifySignaturesAndHashSum P ms armored detached filename binary = .error .hashSumMismatch := by
  unfold verifySignaturesAndHashSum
  rw [h]
  simp [hne]

theorem verifySignature_ok_mem (P : Primitives Key Sig) (ms : List (public_key_block Key))
    (data : QByteArray) (signature : Sig) (id : QString)
    (h : verifySignature P ms data signature = .ok id) :
    ∃ m ∈ ms, id = identity P m ∧ ∃ k ∈ m.keys, P.verify signature data k = true := by
  obtain ⟨pre, m, post, hsplit, -, hv, hid⟩ := (verifySignature_ok P ms data signature id).1 h
  exact ⟨m, by simp [hsplit], hid, (anyKeyVerifies_eq_true P data signature m).1 hv⟩

theorem verifySignature_of_mem (P : Primitives Key Sig) (ms : List (public_key_block Key))
    (data : QByteArray) (signature : Sig) (m : public_key_block Key) (hm : m ∈ ms)
    (hv : anyKeyVerifies P data signature m = true) :
    ∃ m' ∈ ms, anyKeyVerifies P data signature m' = true ∧
      verifySignature P ms data signature = .ok (identity P m') := by
  cases h : verifySignature P ms data signature with
  | error e =>
    have := ((verifySignature_error P ms data signature e).1 h).2 m hm
    rw [hv] at this
    cases this
  | ok id =>
    obtain ⟨pre, m', post, hsplit, -, hv', hid⟩ := (verifySignature_ok P ms data signature id).1 h
    exact ⟨m', by simp [hsplit], hv', by rw [hid]⟩

end

/-! ### Hexadecimal decoding -/

theorem isSpace_of_isHexDigit {c : Char} (h : isHexDigit c = true) : isSpace c = false := by
  simp only [isHexDigit, Bool.or_eq_true, Bool.and_eq_true, decide_eq_true_eq] at h
  simp only [isSpace, Bool.or_eq_false_iff, Bool.and_eq_false_iff, beq_eq_false_iff_ne,
    decide_eq_false_iff_not, ne_eq]
  omega

theorem ne_space_of_not_isSpace {c : Char} (h : isSpace c = false) : c ≠ ' ' := by
  rintro rfl
  simp [isSpace] at h

theorem ne_newline_of_not_isSpace {c : Char} (h : isSpace c = false) : c ≠ '\n' := by
  rintro rfl
  simp [isSpace] at h

theorem utf8Encode_hex {c : Char} (h : isHexDigit c = true) : utf8Encode c = [c.toNat] := by
  simp only [isHexDigit, Bool.or_eq_true, Bool.and_eq_true, decide_eq_true_eq] at h
  have : c.toNat < 128 := by omega
  simp [utf8Encode, this]

theorem fromHexDigit_hex {c : Char} (h : isHexDigit c = true) :
    fromHexDigit c.toNat = some (hexDigitValue c) ∧ hexDigitValue c < 16 := by
  simp only [isHexDigit, Bool.or_eq_true, Bool.and_eq_true, decide_eq_true_eq] at h
  unfold fromHexDigit hexDigitValue
  generalize c.toNat = n at h
  simp only
  split_ifs <;> first
    | omega
    | exact ⟨congrArg some (by omega), by omega⟩

theorem lor_shiftLeft_four {lo hi : Nat} (hlo : lo < 16) (hhi : hi < 16) :
    lo ||| (hi <<< 4) = 16 * hi + lo := by
  interval_cases lo <;> interval_cases hi <;> rfl

theorem fromHexLoop_hex (n : Nat) : ∀ h : QString, h.length = 2 * n →
    (∀ c ∈ h, isHexDigit c = true) → fromHexLoop (toUtf8 h) = (true, hexBytes h) := by
  induction n with
  | zero =>
    intro h hlen _
    have : h = [] := List.length_eq_zero.1 (by simpa using hlen)
    subst this
    rfl
  | succ n ih =>
    intro h hlen hhex
    match h, hlen, hhex with
    | hi :: lo :: rest, hlen, hhex =>
      have hhi := hhex hi (by simp)
      have hlo := hhex lo (by simp)
      have hrest := ih rest (by simp at hlen; omega) (fun c hc => hhex c (by simp [hc]))
      have e : toUtf8 (hi :: lo :: rest) = hi.toNat :: lo.toNat :: toUtf8 rest := by
        simp [toUtf8, utf8Encode_hex hhi, utf8Encode_hex hlo]
      rw [e]
      simp only [fromHexLoop, hrest, (fromHexDigit_hex hhi).1, (fromHexDigit_hex hlo).1,
        if_true, Bool.false_eq_true, if_false, hexBytes,
        lor_shiftLeft_four (fromHexDigit_hex hlo).2 (fromHexDigit_hex hhi).2]
    | [_], hlen, _ => simp at hlen; omega
    | [], hlen, _ => simp at hlen

theorem fromHex_hex (h : QString) (heven : h.length % 2 = 0)
    (hhex : ∀ c ∈ h, isHexDigit c = true) : fromHex (toUtf8 h) = hexBytes h := by
  have := fromHexLoop_hex (h.length / 2) h (by omega) hhex
  simp [fromHex, this]

theorem fromHex_space_hex (h : QString) (heven : h.length % 2 = 0)
    (hhex : ∀ c ∈ h, isHexDigit c = true) : fromHex (toUtf8 (' ' :: h)) = hexBytes h := by
  have e : toUtf8 (' ' :: h) = 32 :: toUtf8 h := by
    simp [toUtf8, utf8Encode]
  have d : fromHexDigit 32 = none := by decide
  rw [fromHex, e, fromHexLoop, d]
  exact fromHex_hex h heven hhex

/-! ### The scan of the lines -/

/-- Lines that, once trimmed, neither end with nor start with the filename fail
both tests of `parseShasumOutput` and are passed over. -/
theorem parseLines_skip (f : QString) (pre rest : List QString)
    (hpre : ∀ l ∈ pre, endsWith (trimmed l) f = false ∧ startsWith (trimmed l) f = false) :
    parseLines f (pre ++ rest) = parseLines f rest := by
  induction pre with
  | nil => rfl
  | cons l pre ih =>
    have hl := hpre l (by simp)
    have := ih (fun l' hl' => hpre l' (by simp [hl']))
    simp [parseLines, hl.1, hl.2, this]

theorem trimmed_eq_self (s : QString) (hne : s ≠ [])
    (hhead : ∀ c ∈ s.head?, isSpace c = false) (hlast : isSpace (s.getLast hne) = false) :
    trimmed s = s := by
  unfold trimmed
  have h1 : s.rdropWhile isSpace = s :=
    List.rdropWhile_eq_self_iff.2 (fun _ => by simp [hlast])
  rw [h1]
  match s, hne, hhead with
  | c :: cs, _, hhead =>
    have := hhead c (by simp)
    simp [List.dropWhile, this]

theorem indexOf_append_space (h rest : QString) (hh : ∀ c ∈ h, c ≠ ' ') :
    indexOf ' ' (h ++ ' ' :: rest) = some h.length := by
  induction h with
  | nil => simp [indexOf]
  | cons c cs ih =>
    have hc := hh c (by simp)
    simp [indexOf, hc, ih (fun d hd => hh d (by simp [hd]))]

theorem lastIndexOf_none (h : QString) (hh : ∀ c ∈ h, c ≠ ' ') : lastIndexOf ' ' h = none := by
  induction h with
  | nil => rfl
  | cons c cs ih =>
    have hc := hh c (by simp)
    simp [lastIndexOf, hc, ih (fun d hd => hh d (by simp [hd]))]

theorem lastIndexOf_append_space (s h : QString) (hh : ∀ c ∈ h, c ≠ ' ') :
    lastIndexOf ' ' (s ++ ' ' :: h) = some s.length := by
  induction s with
  | nil => simp [lastIndexOf, lastIndexOf_none h hh]
  | cons c cs ih => simp [lastIndexOf, ih]

theorem splitRef_of_no_newline (s : QString) (hs : ∀ c ∈ s, c ≠ '\n') : splitRef s = [s] := by
  induction s with
  | nil => rfl
  | cons c cs ih =>
    have hc := hs c (by simp)
    simp [splitRef, hc, ih (fun d hd => hs d (by simp [hd]))]

/-- The line `h`, spaces, `f` is kept by `trimmed`. -/
theorem trimmed_layoutA (f h : QString) (k : Nat) (hf : f ≠ [])
    (hfs : ∀ c ∈ f, isSpace c = false) (hh : h ≠ [])
    (hhex : ∀ c ∈ h, isHexDigit c = true) :
    trimmed (h ++ List.replicate (k + 1) ' ' ++ f) = h ++ List.replicate (k + 1) ' ' ++ f := by
  apply trimmed_eq_self _ (by simp [hf])
  · match h, hh with
    | c :: cs, _ =>
      intro d hd
      simp only [List.cons_append, List.head?_cons, Option.mem_def, Option.some.injEq] at hd
      subst hd
      exact isSpace_of_isHexDigit (hhex _ (by simp))
  · rw [List.getLast_append_of_ne_nil hf]
    exact hfs _ (List.getLast_mem hf)

/-- The line `f`, spaces, `h` is kept by `trimmed`. -/
theorem trimmed_layoutB (f h : QString) (k : Nat) (hf : f ≠ [])
    (hfs : ∀ c ∈ f, isSpace c = false) (hh : h ≠ [])
    (hhex : ∀ c ∈ h, isHexDigit c = true) :
    trimmed (f ++ List.replicate (k + 1) ' ' ++ h) = f ++ List.replicate (k + 1) ' ' ++ h := by
  apply trimmed_eq_self _ (by simp [hf])
  · match f, hf with
    | c :: cs, _ =>
      intro d hd
      simp only [List.cons_append, List.head?_cons, Option.mem_def, Option.some.injEq] at hd
      subst hd
      exact hfs _ (by simp)
  · rw [List.getLast_append_of_ne_nil hh]
    exact isSpace_of_isHexDigit (hhex _ (List.getLast_mem hh))

/-- What the loop does on a line in layout A, whatever follows it. -/
theorem parseLines_layoutA (f h : QString) (k : Nat) (rest : List QString) (hf : f ≠ [])
    (hfs : ∀ c ∈ f, isSpace c = false) (hh : h ≠ [])
    (hhex : ∀ c ∈ h, isHexDigit c = true) (heven : h.length % 2 = 0) :
    parseLines f ((h ++ List.replicate (k + 1) ' ' ++ f) :: rest) = .ok (hexBytes h) := by
  have hsp : ∀ c ∈ h, c ≠ ' ' := fun c hc =>
    ne_space_of_not_isSpace (isSpace_of_isHexDigit (hhex c hc))
  have hends : endsWith (h ++ List.replicate (k + 1) ' ' ++ f) f = true := by
    simp only [endsWith, List.isSuffixOf_iff_suffix]
    exact List.suffix_append _ _
  have hidx : indexOf ' ' (h ++ List.replicate (k + 1) ' ' ++ f) = some h.length := by
    rw [List.replicate_succ, List.append_assoc, List.cons_append]
    exact indexOf_append_space h _ hsp
  have hleft : left (h ++ List.replicate (k + 1) ' ' ++ f) h.length = h := by
    simp [left, List.append_assoc]
  simp only [parseLines, trimmed_layoutA f h k hf hfs hh hhex, hends, if_true, hidx, hleft,
    fromHex_hex h heven hhex]

/-- What the loop does on a line in layout B that does not end with the
filename, whatever follows it. -/
theorem parseLines_layoutB (f h : QString) (k : Nat) (rest : List QString) (hf : f ≠ [])
    (hfs : ∀ c ∈ f, isSpace c = false) (hh : h ≠ [])
    (hhex : ∀ c ∈ h, isHexDigit c = true) (heven : h.length % 2 = 0)
    (hends : endsWith (f ++ List.replicate (k + 1) ' ' ++ h) f = false) :
    parseLines f ((f ++ List.replicate (k + 1) ' ' ++ h) :: rest) = .ok (hexBytes h) := by
  have hsp : ∀ c ∈ h, c ≠ ' ' := fun c hc =>
    ne_space_of_not_isSpace (isSpace_of_isHexDigit (hhex c hc))
  have hstarts : startsWith (f ++ List.replicate (k + 1) ' ' ++ h) f = true := by
    simp only [startsWith, List.isPrefixOf_iff_prefix, List.append_assoc]
    exact List.prefix_append _ _
  have hline : f ++ List.replicate (k + 1) ' ' ++ h = (f ++ List.replicate k ' ') ++ ' ' :: h := by
    rw [List.replicate_succ', List.append_assoc, List.append_assoc, List.append_assoc]
    rfl
  have hidx : lastIndexOf ' ' (f ++ List.replicate (k + 1) ' ' ++ h) = some (f.length + k) := by
    rw [hline, lastIndexOf_append_space _ h hsp]
    simp
  have hright : right (f ++ List.replicate (k + 1) ' ' ++ h)
      ((f ++ List.replicate (k + 1) ' ' ++ h).length - (f.length + k)) = ' ' :: h := by
    unfold right
    have hlen : (f ++ List.replicate (k + 1) ' ' ++ h).length -
        ((f ++ List.replicate (k + 1) ' ' ++ h).length - (f.length + k)) =
        (f ++ List.replicate k ' ').length := by
      simp
      omega
    rw [hlen, hline, List.drop_left]
  simp only [parseLines, trimmed_layoutB f h k hf hfs hh hhex, hends, Bool.false_eq_true,
    if_false, hstarts, if_true, hidx, hright, fromHex_space_hex h heven hhex]

section
variable {Key Sig : Type}

/-! ### The stages of the pipeline -/

theorem verifyParse_message_error (P : Primitives Key Sig) (ms : List (public_key_block Key))
    (armored detached : QByteArray) (filename : QString) (signers0 : Signers) (e : String)
    (hm : P.message_armored armored = .error e) :
    verifyParseSignedHahes P ms armored detached filename signers0 =
      (.error (.openpgp e), signers0) := by
  simp [verifyParseSignedHahes, verifySignatureArmored, hm]

theorem verifyParse_armored_error (P : Primitives Key Sig) (ms : List (public_key_block Key))
    (armored detached : QByteArray) (filename : QString) (signers0 : Signers)
    (message : QByteArray) (e : String)
    (hm : P.message_armored armored = .ok message) (h1 : P.from_armored armored = .error e) :
    verifyParseSignedHahes P ms armored detached filename signers0 =
      (.error (.openpgp e), signers0) := by
  simp [verifyParseSignedHahes, verifySignatureArmored, hm, h1]

theorem verifyParse_inline_error (P : Primitives Key Sig) (ms : List (public_key_block Key))
    (armored detached : QByteArray) (filename : QString) (signers0 : Signers)
    (message : QByteArray) (sig1 : Sig) (e : UpdaterError)
    (hm : P.message_armored armored = .ok message) (h1 : P.from_armored armored = .ok sig1)
    (hA : verifySignature P ms message sig1 = .error e) :
    verifyParseSignedHahes P ms armored detached filename signers0 = (.error e, signers0) := by
  simp [verifyParseSignedHahes, verifySignatureArmored, hm, h1, hA]

theorem verifyParse_buffer_error (P : Primitives Key Sig) (ms : List (public_key_block Key))
    (armored detached : QByteArray) (filename : QString) (signers0 : Signers)
    (message : QByteArray) (sig1 : Sig) (id1 : QString) (e : String)
    (hm : P.message_armored armored = .ok message) (h1 : P.from_armored armored = .ok sig1)
    (hA : verifySignature P ms message sig1 = .ok id1)
    (h2 : P.from_buffer detached = .error e) :
    verifyParseSignedHahes P ms armored detached filename signers0 =
      (.error (.openpgp e), (id1, signers0.2)) := by
  simp [verifyParseSignedHahes, verifySignatureArmored, hm, h1, hA, h2]

theorem verifyParse_detached_error (P : Primitives Key Sig) (ms : List (public_key_block Key))
    (armored detached : QByteArray) (filename : QString) (signers0 : Signers)
    (message : QByteArray) (sig1 sig2 : Sig) (id1 : QString) (e : UpdaterError)
    (hm : P.message_armored armored = .ok message) (h1 : P.from_armored armored = .ok sig1)
    (hA : verifySignature P ms message sig1 = .ok id1)
    (h2 : P.from_buffer detached = .ok sig2)
    (hB : verifySignature P ms armored sig2 = .error e) :
    verifyParseSignedHahes P ms armored detached filename signers0 =
      (.error e, (id1, signers0.2)) := by
  simp [verifyParseSignedHahes, verifySignatureArmored, hm, h1, hA, h2, hB]

theorem verifyParse_both_ok (P : Primitives Key Sig) (ms : List (public_key_block Key))
    (armored detached : QByteArray) (filename : QString) (signers0 : Signers)
    (message : QByteArray) (sig1 sig2 : Sig) (id1 id2 : QString)
    (hm : P.message_armored armored = .ok message) (h1 : P.from_armored armored = .ok sig1)
    (hA : verifySignature P ms message sig1 = .ok id1)
    (h2 : P.from_buffer detached = .ok sig2)
    (hB : verifySignature P ms armored sig2 = .ok id2) :
    verifyParseSignedHahes P ms armored detached filename signers0 =
      (if id1 = id2 then .error .signersIdentical
        else parseShasumOutput (qstringOfBytes P message) filename, (id1, id2)) := by
  by_cases h : id1 = id2 <;>
    simp [verifyParseSignedHahes, verifySignatureArmored, hm, h1, hA, h2, hB, h]

theorem verifySignature_none (P : Primitives Key Sig) (ms : List (public_key_block Key))
    (data : QByteArray) (signature : Sig)
    (h : ∀ m ∈ ms, ∀ k ∈ m.keys, P.verify signature data k = false) :
    verifySignature P ms data signature = .error .notSignedByMaintainer :=
  (verifySignature_error P ms data signature _).2
    ⟨rfl, fun m hm => (anyKeyVerifies_eq_false P data signature m).2 (h m hm)⟩

theorem parseLines_error (f : QString) (ls : List QString) (e : UpdaterError)
    (h : parseLines f ls = .error e) : e = .hashNotFound := by
  induction ls with
  | nil =>
    simp only [parseLines, Except.error.injEq] at h
    exact h.symm
  | cons l rest ih =>
    simp only [parseLines] at h
    split_ifs at h
    · split at h
      · cases h
      · exact ih h
    · split at h
      · cases h
      · exact ih h
    · exact ih h

theorem getHash_length (P : Primitives Key Sig) (data : QByteArray) :
    (getHash P data).length = 32 := by
  simp [getHash]

end

/-! ### Decoding of any token -/

theorem fromHexLoop_filter (b : QByteArray) :
    fromHexLoop (b.filter isHexByte) = fromHexLoop b := by
  induction b with
  | nil => rfl
  | cons ch rest ih =>
    cases hd : fromHexDigit ch with
    | none =>
      have : isHexByte ch = false := by simp [isHexByte, hd]
      rw [List.filter_cons_of_neg (by simp [this]), ih]
      simp [fromHexLoop, hd]
    | some tmp =>
      have : isHexByte ch = true := by simp [isHexByte, hd]
      rw [List.filter_cons_of_pos this]
      simp only [fromHexLoop, hd, ih]

theorem fromHexLoop_length (b : QByteArray) :
    ((fromHexLoop b).1 = true ∧ 2 * (fromHexLoop b).2.length = (b.filter isHexByte).length) ∨
    ((fromHexLoop b).1 = false ∧
      2 * (fromHexLoop b).2.length = (b.filter isHexByte).length + 1) := by
  induction b with
  | nil => left; exact ⟨rfl, rfl⟩
  | cons ch rest ih =>
    cases hd : fromHexDigit ch with
    | none =>
      have : isHexByte ch = false := by simp [isHexByte, hd]
      rw [List.filter_cons_of_neg (by simp [this])]
      simpa [fromHexLoop, hd] using ih
    | some tmp =>
      have : isHexByte ch = true := by simp [isHexByte, hd]
      rw [List.filter_cons_of_pos this]
      rcases ih with ⟨h1, h2⟩ | ⟨h1, h2⟩
      · right
        simp only [fromHexLoop, hd, h1, if_true, List.length_cons]
        exact ⟨trivial, by omega⟩
      · left
        cases hs : (fromHexLoop rest).2 with
        | nil =>
          rw [hs] at h2
          simp at h2
        | cons x xs =>
          rw [hs] at h2
          simp only [fromHexLoop, hd, h1, hs, Bool.false_eq_true, if_false, List.length_cons]
            at h2 ⊢
          exact ⟨trivial, by omega⟩

theorem fromHex_filter (b : QByteArray) : fromHex b = fromHex (b.filter isHexByte) := by
  rw [fromHex, fromHex, fromHexLoop_filter]

theorem fromHex_length (b : QByteArray) :
    (fromHex b).length = ((b.filter isHexByte).length + 1) / 2 := by
  unfold fromHex
  rcases fromHexLoop_length b with ⟨_, h⟩ | ⟨_, h⟩ <;> omega

theorem fromHex_space (r : QString) : fromHex (toUtf8 (' ' :: r)) = fromHex (toUtf8 r) := by
  have e : toUtf8 (' ' :: r) = 32 :: toUtf8 r := by
    simp [toUtf8, utf8Encode]
  have d : fromHexDigit 32 = none := by decide
  rw [fromHex, e, fromHexLoop, d]
  rfl

/-! ### The first line that is read -/

theorem exists_first_space (t : QString) (h : ' ' ∈ t) :
    ∃ l r, t = l ++ ' ' :: r ∧ ' ' ∉ l := by
  obtain ⟨l, r, ht, hl⟩ := List.eq_append_cons_of_mem h
  exact ⟨l, r, ht, hl⟩

theorem exists_last_space (t : QString) (h : ' ' ∈ t) :
    ∃ l r, t = l ++ ' ' :: r ∧ ' ' ∉ r := by
  obtain ⟨l, r, ht, hl⟩ := List.eq_append_cons_of_mem (List.mem_reverse.2 h)
  refine ⟨r.reverse, l.reverse, ?_, by simpa using hl⟩
  have := congrArg List.reverse ht
  simpa using this

theorem parseLines_endsWith (f L : QString) (rest : List QString) (l r : QString)
    (hends : endsWith (trimmed L) f = true) (ht : trimmed L = l ++ ' ' :: r) (hl : ' ' ∉ l) :
    parseLines f (L :: rest) = .ok (fromHex (toUtf8 l)) := by
  have hidx : indexOf ' ' (trimmed L) = some l.length := by
    rw [ht]
    exact indexOf_append_space l r (fun c hc hcs => hl (hcs ▸ hc))
  have hleft : left (trimmed L) l.length = l := by
    rw [ht]
    simp [left]
  simp only [parseLines, hends, if_true, hidx, hleft]

theorem parseLines_startsWith (f L : QString) (rest : List QString) (l r : QString)
    (hends : endsWith (trimmed L) f = false) (hstarts : startsWith (trimmed L) f = true)
    (ht : trimmed L = l ++ ' ' :: r) (hr : ' ' ∉ r) :
    parseLines f (L :: rest) = .ok (fromHex (toUtf8 r)) := by
  have hidx : lastIndexOf ' ' (trimmed L) = some l.length := by
    rw [ht]
    exact lastIndexOf_append_space l r (fun c hc hcs => hr (hcs ▸ hc))
  have hright : right (trimmed L) ((trimmed L).length - l.length) = ' ' :: r := by
    rw [ht]
    unfold right
    have hlen : (l ++ ' ' :: r).length - ((l ++ ' ' :: r).length - l.length) = l.length := by
      simp
    rw [hlen, List.drop_left]
  simp only [parseLines, hends, Bool.false_eq_true, if_false, hstarts, if_true, hidx, hright,
    fromHex_space]

theorem splitRef_line (l rest : QString) (hl : ∀ c ∈ l, c ≠ '\n') :
    splitRef (l ++ '\n' :: rest) = l :: splitRef rest := by
  induction l with
  | nil => simp [splitRef]
  | cons c cs ih =>
    have hc := hl c (by simp)
    simp [splitRef, hc, ih (fun d hd => hl d (by simp [hd]))]

theorem splitRef_closedLines (pre : List QString) (rest : QString)
    (hpre : ∀ l ∈ pre, ∀ c ∈ l, c ≠ '\n') :
    splitRef (closedLines pre ++ rest) = pre ++ splitRef rest := by
  induction pre with
  | nil => simp [closedLines]
  | cons l pre ih =>
    have e : closedLines (l :: pre) ++ rest = l ++ '\n' :: (closedLines pre ++ rest) := by
      simp [closedLines]
    rw [e, splitRef_line l _ (hpre l (by simp)),
      ih (fun l' hl' => hpre l' (by simp [hl'])), List.cons_append]

/-! ### White space around a line -/

theorem dropWhile_padding (w x : QString) (hw : ∀ c ∈ w, isSpace c = true) :
    (w ++ x).dropWhile isSpace = x.dropWhile isSpace := by
  induction w with
  | nil => rfl
  | cons c cs ih =>
    have hc := hw c (by simp)
    simp [List.dropWhile, hc, ih (fun d hd => hw d (by simp [hd]))]

theorem rdropWhile_padding (x w : QString) (hw : ∀ c ∈ w, isSpace c = true) :
    (x ++ w).rdropWhile isSpace = x.rdropWhile isSpace := by
  unfold List.rdropWhile
  rw [List.reverse_append, dropWhile_padding _ _ (fun c hc => hw c (List.mem_reverse.1 hc))]

theorem dropWhile_concat (x : QString) (a : Char) :
    (x ++ [a]).dropWhile isSpace =
      if x.dropWhile isSpace = [] then [a].dropWhile isSpace
      else x.dropWhile isSpace ++ [a] := by
  induction x with
  | nil => simp
  | cons c cs ih =>
    by_cases hc : isSpace c = true
    · simp [List.dropWhile, hc, ih]
    · simp [List.dropWhile, hc]

theorem dropWhile_rdropWhile_comm (y : QString) :
    (y.rdropWhile isSpace).dropWhile isSpace = (y.dropWhile isSpace).rdropWhile isSpace := by
  induction y using List.reverseRecOn with
  | nil => rfl
  | append_singleton x a ih =>
    by_cases ha : isSpace a = true
    · rw [List.rdropWhile_concat_pos _ _ _ ha, ih, dropWhile_concat]
      by_cases hx : x.dropWhile isSpace = []
      · simp [hx, List.dropWhile, ha]
      · simp only [hx, if_false]
        rw [List.rdropWhile_concat_pos _ _ _ ha]
    · rw [List.rdropWhile_concat_neg _ _ _ ha, dropWhile_concat]
      by_cases hx : x.dropWhile isSpace = []
      · have e : List.rdropWhile isSpace [a] = [a] := List.rdropWhile_concat_neg isSpace [] a ha
        simp [hx, List.dropWhile, ha, e]
      · simp only [hx, if_false]
        rw [List.rdropWhile_concat_neg _ _ _ ha]

theorem trimmed_padding (w1 core w2 : QString) (h1 : ∀ c ∈ w1, isSpace c = true)
    (h2 : ∀ c ∈ w2, isSpace c = true) : trimmed (w1 ++ core ++ w2) = trimmed core := by
  unfold trimmed
  rw [rdropWhile_padding _ _ h2, dropWhile_rdropWhile_comm, dropWhile_padding _ _ h1,
    ← dropWhile_rdropWhile_comm]

theorem trimmed_paddedAlike {l l' : QString} (h : paddedAlike l l') :
    trimmed l = trimmed l' := by
  obtain ⟨core, w1, w2, w1', w2', h1, h2, h1', h2', rfl, rfl⟩ := h
  rw [trimmed_padding w1 core w2 (fun c hc => (h1 c hc).1) (fun c hc => (h2 c hc).1),
    trimmed_padding w1' core w2' (fun c hc => (h1' c hc).1) (fun c hc => (h2' c hc).1)]

theorem parseLines_trimmed (f : QString) {ls ls' : List QString}
    (h : List.Forall₂ (fun l l' => trimmed l = trimmed l') ls ls') :
    parseLines f ls = parseLines f ls' := by
  induction h with
  | nil => rfl
  | cons hab _ ih => simp only [parseLines, hab, ih]

/-! ### Signers -/

section
variable {Key Sig : Type}

/-- C1: whenever `verifySignaturesAndHashSum` returns successfully, and likewise
whenever `verifyParseSignedHahes` does, from any initial `signers`, the two
signer identities it yields are different. -/
theorem signers_differ (P : Primitives Key Sig) (ms : List (public_key_block Key))
    (armored detached : QByteArray) (filename : QString) (binary : QByteArray) :
    (∀ signers, verifySignaturesAndHashSum P ms armored detached filename binary = .ok signers →
      signers.1 ≠ signers.2) ∧
    (∀ signers0 hash signers,
      verifyParseSignedHahes P ms armored detached filename signers0 = (.ok hash, signers) →
      signers.1 ≠ signers.2) := by
  have key : ∀ signers0 hash signers,
      verifyParseSignedHahes P ms armored detached filename signers0 = (.ok hash, signers) →
      signers.1 ≠ signers.2 := by
    intro signers0 hash signers h
    obtain ⟨_, _, _, _, _, _, _, _, hne, _⟩ :=
      (verifyParseSignedHahes_ok P ms armored detached filename signers0 signers hash).1 h
    exact hne
  exact ⟨fun signers h => key _ _ _
    ((verifySignaturesAndHashSum_ok P ms armored detached filename binary signers).1 h), key⟩

/-- C1 at a concrete input: signatures by key 1 and by key 3 are accepted, and
the identities returned differ. -/
theorem signers_differ_witness :
    verifySignaturesAndHashSum demoPrimitives demoMaintainers demoArmored demoDetached
        "app.bin".toList [7] = .ok ("alice".toList, "bob".toList) ∧
      "alice".toList ≠ "bob".toList :=
  ⟨by rfl, (signers_differ demoPrimitives demoMaintainers demoArmored demoDetached
    "app.bin".toList [7]).1 ("alice".toList, "bob".toList) (by rfl)⟩

/-- C2, as amended: whenever `verifyParseSignedHahes` succeeds, two entries of
the maintainer list with different user ids exist such that `signers.first` is
the identity of one, which holds a key validating the inline signature over the
plaintext of the armored envelope, and `signers.second` the identity of the
other, which holds a key validating the detached signature over the raw bytes of
that envelope. When keys do not collide across identities, no single entry holds
keys validating both signatures. -/
theorem two_maintainers_attest (P : Primitives Key Sig) (ms : List (public_key_block Key))
    (armored detached : QByteArray) (filename : QString) (signers0 signers : Signers)
    (hash : QByteArray)
    (h : verifyParseSignedHahes P ms armored detached filename signers0 = (.ok hash, signers)) :
    ∃ message sig1 sig2,
      P.message_armored armored = .ok message ∧ P.from_armored armored = .ok sig1 ∧
      P.from_buffer detached = .ok sig2 ∧
      (∃ m1 ∈ ms, ∃ m2 ∈ ms,
        identity P m1 ≠ identity P m2 ∧ m1.user_id ≠ m2.user_id ∧
        signers.1 = identity P m1 ∧ (∃ k ∈ m1.keys, P.verify sig1 message k = true) ∧
        signers.2 = identity P m2 ∧ (∃ k ∈ m2.keys, P.verify sig2 armored k = true)) ∧
      (keysNonColliding P ms → ∀ m ∈ ms,
        ¬ ((∃ k ∈ m.keys, P.verify sig1 message k = true) ∧
           (∃ k ∈ m.keys, P.verify sig2 armored k = true))) := by
  obtain ⟨message, sig1, sig2, hm, h1, h2, hA, hB, hne, -⟩ :=
    (verifyParseSignedHahes_ok P ms armored detached filename signers0 signers hash).1 h
  obtain ⟨m1, hm1, hid1, hk1⟩ := verifySignature_ok_mem P ms message sig1 _ hA
  obtain ⟨m2, hm2, hid2, hk2⟩ := verifySignature_ok_mem P ms armored sig2 _ hB
  refine ⟨message, sig1, sig2, hm, h1, h2, ⟨m1, hm1, m2, hm2, ?_, ?_, hid1, hk1, hid2, hk2⟩, ?_⟩
  · rw [← hid1, ← hid2]
    exact hne
  · intro hu
    apply hne
    rw [hid1, hid2, identity, identity, hu]
  · rintro hnc m hmem ⟨hk, hk'⟩
    apply hne
    have e1 : identity P m1 = identity P m :=
      hnc message sig1 m1 hm1 m hmem ((anyKeyVerifies_eq_true P message sig1 m1).2 hk1)
        ((anyKeyVerifies_eq_true P message sig1 m).2 hk)
    have e2 : identity P m2 = identity P m :=
      hnc armored sig2 m2 hm2 m hmem ((anyKeyVerifies_eq_true P armored sig2 m2).2 hk2)
        ((anyKeyVerifies_eq_true P armored sig2 m).2 hk')
    rw [hid1, hid2, e1, e2]

/-- The maintainers of the concrete instance hold no key in common. -/
theorem demoMaintainers_nonColliding : keysNonColliding demoPrimitives demoMaintainers := by
  rintro data ⟨key, signed⟩ m hm m' hm'
  simp only [demoMaintainers, List.mem_cons, List.mem_singleton, List.not_mem_nil, or_false]
    at hm hm'
  rcases hm with rfl | rfl <;> rcases hm' with rfl | rfl <;>
    simp [anyKeyVerifies, demoPrimitives] <;> omega

/-- C2 (amended) at a concrete input. -/
theorem two_maintainers_attest_witness :
    verifyParseSignedHahes demoPrimitives demoMaintainers demoArmored demoDetached
        "app.bin".toList ([], []) = (.ok demoHash, ("alice".toList, "bob".toList)) ∧
      keysNonColliding demoPrimitives demoMaintainers ∧
      ∃ message sig1 sig2,
        demoPrimitives.message_armored demoArmored = .ok message ∧
        demoPrimitives.from_armored demoArmored = .ok sig1 ∧
        demoPrimitives.from_buffer demoDetached = .ok sig2 ∧
        (∃ m1 ∈ demoMaintainers, ∃ m2 ∈ demoMaintainers,
          identity demoPrimitives m1 ≠ identity demoPrimitives m2 ∧ m1.user_id ≠ m2.user_id ∧
          "alice".toList = identity demoPrimitives m1 ∧
          (∃ k ∈ m1.keys, demoPrimitives.verify sig1 message k = true) ∧
          "bob".toList = identity demoPrimitives m2 ∧
          (∃ k ∈ m2.keys, demoPrimitives.verify sig2 demoArmored k = true)) ∧
        (keysNonColliding demoPrimitives demoMaintainers → ∀ m ∈ demoMaintainers,
          ¬ ((∃ k ∈ m.keys, demoPrimitives.verify sig1 message k = true) ∧
             (∃ k ∈ m.keys, demoPrimitives.verify sig2 demoArmored k = true))) :=
  ⟨by rfl, demoMaintainers_nonColliding,
    two_maintainers_attest demoPrimitives demoMaintainers demoArmored demoDetached
      "app.bin".toList ([], []) ("alice".toList, "bob".toList) demoHash (by rfl)⟩

/-- C2 as stated fails when two entries have a key in common: with key 1 in the
blocks of both maintainers, an inline signature by key 1 and a detached
signature by key 2 are accepted as signed by two maintainers, although the
second entry alone holds a key validating each of them. -/
theorem single_entry_satisfies_both :
    verifyParseSignedHahes demoPrimitives sharedKeyMaintainers demoArmored demoDetachedSame
        "app.bin".toList ([], []) = (.ok demoHash, ("alice".toList, "bob".toList)) ∧
      ∃ m ∈ sharedKeyMaintainers,
        (∃ k ∈ m.keys, demoPrimitives.verify (1, demoManifest) demoManifest k = true) ∧
        (∃ k ∈ m.keys, demoPrimitives.verify (2, demoArmored) demoArmored k = true) ∧
        demoPrimitives.message_armored demoArmored = .ok demoManifest ∧
        demoPrimitives.from_armored demoArmored = .ok (1, demoManifest) ∧
        demoPrimitives.from_buffer demoDetachedSame = .ok (2, demoArmored) :=
  ⟨by rfl, ⟨asciiBytes "bob", [1, 2]⟩, by simp [sharedKeyMaintainers],
    ⟨1, by simp, by simp [demoPrimitives]⟩, ⟨2, by simp, by simp [demoPrimitives]⟩,
    rfl, rfl, rfl⟩

end

/-! ### Rejection and the hash comparisons -/

section
variable {Key Sig : Type}

/-- C3: when the inline signature and the detached signature both parse, both are
validated by a key of a trusted maintainer and both resolve to the same
identity, `verifyParseSignedHahes` fails with "both signatures were generated by
the same person", whatever the plaintext and the filename are. -/
theorem same_signer_rejected (P : Primitives Key Sig) (ms : List (public_key_block Key))
    (armored detached : QByteArray) (filename : QString) (signers0 : Signers)
    (message : QByteArray) (sig1 sig2 : Sig) (id : QString)
    (hm : P.message_armored armored = .ok message) (h1 : P.from_armored armored = .ok sig1)
    (h2 : P.from_buffer detached = .ok sig2)
    (hA : verifySignature P ms message sig1 = .ok id)
    (hB : verifySignature P ms armored sig2 = .ok id) :
    (verifyParseSignedHahes P ms armored detached filename signers0).1 =
        .error .signersIdentical ∧
      (UpdaterError.signersIdentical).what =
        "both signatures were generated by the same person" := by
  simp [verifyParseSignedHahes, verifySignatureArmored, hm, h1, h2, hA, hB, UpdaterError.what]

/-- C3 at a concrete input: two different keys, 1 and 2, of one maintainer. -/
theorem same_signer_rejected_witness :
    verifySignature demoPrimitives demoMaintainers demoManifest (1, demoManifest) =
        .ok "alice".toList ∧
      verifySignature demoPrimitives demoMaintainers demoArmored (2, demoArmored) =
        .ok "alice".toList ∧
      (verifyParseSignedHahes demoPrimitives demoMaintainers demoArmored demoDetachedSame
        "app.bin".toList ([], [])).1 = .error .signersIdentical :=
  ⟨by rfl, by rfl,
    (same_signer_rejected demoPrimitives demoMaintainers demoArmored demoDetachedSame
      "app.bin".toList ([], []) demoManifest (1, demoManifest) (2, demoArmored) "alice".toList
      rfl rfl rfl (by rfl) (by rfl)).1⟩

/-- C5: with the two blobs fetched, `fetchSignedHash` returns successfully only
if the hash extracted from the verified list equals `hashFromDns`, and it
returns that hash; when `verifyParseSignedHahes` passes with a hash that differs
from `hashFromDns`, it fails with "DNS hash mismatch", an error other than "hash
sum mismatch". -/
theorem dns_hash_checked (P : Primitives Key Sig) (ms : List (public_key_block Key))
    (filename : QString) (hashFromDns : QByteArray) (signers0 : Signers)
    (hashesTxt hashesTxtSig : QByteArray)
    (hget : P.get hashesTxtUrl = .ok hashesTxt)
    (hgetSig : P.get hashesTxtSigUrl = .ok hashesTxtSig) :
    (∀ hash signers,
      fetchSignedHash P ms filename hashFromDns signers0 = (.ok hash, signers) →
      hash = hashFromDns ∧
      verifyParseSignedHahes P ms hashesTxt hashesTxtSig filename signers0 =
        (.ok hash, signers) ∧
      ∃ message, P.message_armored hashesTxt = .ok message ∧
        parseShasumOutput (qstringOfBytes P message) filename = .ok hashFromDns) ∧
    (∀ hash signers,
      verifyParseSignedHahes P ms hashesTxt hashesTxtSig filename signers0 =
        (.ok hash, signers) →
      hash ≠ hashFromDns →
      fetchSignedHash P ms filename hashFromDns signers0 =
        (.error .dnsHashMismatch, signers)) ∧
    (UpdaterError.dnsHashMismatch).what = "DNS hash mismatch" ∧
    UpdaterError.dnsHashMismatch ≠ UpdaterError.hashSumMismatch ∧
    (UpdaterError.dnsHashMismatch).what ≠ (UpdaterError.hashSumMismatch).what := by
  have hf : fetchSignedHash P ms filename hashFromDns signers0 =
      match verifyParseSignedHahes P ms hashesTxt hashesTxtSig filename signers0 with
      | (.error e, signers) => (.error e, signers)
      | (.ok signedHash, signers) =>
        if signedHash ≠ hashFromDns then (.error .dnsHashMismatch, signers)
        else (.ok signedHash, signers) := by
    simp only [fetchSignedHash, hget, hgetSig]
  rw [hf]
  refine ⟨?_, ?_, rfl, by decide, by decide⟩
  · intro hash signers
    rcases hv : verifyParseSignedHahes P ms hashesTxt hashesTxtSig filename signers0 with ⟨r, s⟩
    intro h
    cases r with
    | error e =>
      injection h with h _
      cases h
    | ok signedHash =>
      by_cases hh : signedHash = hashFromDns
      · simp only [hh, ne_eq, not_true_eq_false, if_false] at h
        injection h with h1 h2
        cases h1
        cases h2
        subst hh
        obtain ⟨message, _, _, hm, _, _, _, _, _, hp⟩ :=
          (verifyParseSignedHahes_ok P ms hashesTxt hashesTxtSig filename signers0 _ _).1 hv
        exact ⟨rfl, rfl, message, hm, hp⟩
      · simp only [hh, ne_eq, not_false_eq_true, if_true] at h
        injection h with h _
        cases h
  · intro hash signers hv hne
    simp only [hv, ne_eq, hne, not_false_eq_true, if_true]

/-- C5 at a concrete input: the hash of the list is accepted, and the same hash
with its first byte changed is refused. -/
theorem dns_hash_checked_witness :
    fetchSignedHash demoPrimitives demoMaintainers "app.bin".toList demoHash ([], []) =
        (.ok demoHash, ("alice".toList, "bob".toList)) ∧
      fetchSignedHash demoPrimitives demoMaintainers "app.bin".toList
        (6 :: List.replicate 31 7) ([], []) =
        (.error .dnsHashMismatch, ("alice".toList, "bob".toList)) :=
  ⟨by rfl,
    (dns_hash_checked demoPrimitives demoMaintainers "app.bin".toList
      (6 :: List.replicate 31 7) ([], []) demoArmored demoDetached (by rfl) (by rfl)).2.1
      demoHash ("alice".toList, "bob".toList) (by rfl) (by decide)⟩

end

/-! ### Identity of the signer -/

section
variable {Key Sig : Type}

/-- C6: `verifySignature(data, signature)` fails with "not signed by a
maintainer" if and only if no public key of any maintainer of the list validates
the signature over the data; it fails with no other error, and an identity it
returns is that of a maintainer holding a validating key. -/
theorem not_signed_iff_no_key (P : Primitives Key Sig) (ms : List (public_key_block Key))
    (data : QByteArray) (signature : Sig) :
    (verifySignature P ms data signature = .error .notSignedByMaintainer ↔
      ∀ m ∈ ms, ∀ k ∈ m.keys, P.verify signature data k = false) ∧
    (∀ e, verifySignature P ms data signature = .error e → e = .notSignedByMaintainer) ∧
    (∀ id, verifySignature P ms data signature = .ok id →
      ∃ m ∈ ms, ∃ k ∈ m.keys, P.verify signature data k = true ∧ id = identity P m) ∧
    (UpdaterError.notSignedByMaintainer).what = "not signed by a maintainer" := by
  refine ⟨?_, ?_, ?_, rfl⟩
  · rw [verifySignature_error]
    constructor
    · rintro ⟨-, h⟩ m hm
      exact (anyKeyVerifies_eq_false P data signature m).1 (h m hm)
    · intro h
      exact ⟨rfl, fun m hm => (anyKeyVerifies_eq_false P data signature m).2 (h m hm)⟩
  · intro e h
    exact ((verifySignature_error P ms data signature e).1 h).1
  · intro id h
    obtain ⟨m, hm, hid, k, hk, hv⟩ := verifySignature_ok_mem P ms data signature id h
    exact ⟨m, hm, k, hk, hv, hid⟩

/-- C7: when some trusted key validates, `verifySignature(data, signature)`
returns the identity of the first maintainer, in list order, that holds a
validating key; in particular, when a key of `m` validates and no key of another
maintainer does, it returns the identity of `m`, whichever key of `m` that is. -/
theorem first_maintainer_returned (P : Primitives Key Sig) (ms : List (public_key_block Key))
    (data : QByteArray) (signature : Sig) :
    (∀ pre m post, ms = pre ++ m :: post →
      (∀ p ∈ pre, ∀ k ∈ p.keys, P.verify signature data k = false) →
      (∃ k ∈ m.keys, P.verify signature data k = true) →
      verifySignature P ms data signature = .ok (identity P m)) ∧
    (∀ m ∈ ms, ∀ k ∈ m.keys, P.verify signature data k = true →
      (∀ m' ∈ ms, m' ≠ m → ∀ k' ∈ m'.keys, P.verify signature data k' = false) →
      verifySignature P ms data signature = .ok (identity P m)) := by
  constructor
  · intro pre m post hsplit hpre hm
    exact (verifySignature_ok P ms data signature _).2
      ⟨pre, m, post, hsplit,
        fun p hp => (anyKeyVerifies_eq_false P data signature p).2 (hpre p hp),
        (anyKeyVerifies_eq_true P data signature m).2 hm, rfl⟩
  · intro m hm k hk hv hothers
    obtain ⟨m', hm', hv', hres⟩ := verifySignature_of_mem P ms data signature m hm
      ((anyKeyVerifies_eq_true P data signature m).2 ⟨k, hk, hv⟩)
    by_cases heq : m' = m
    · rw [hres, heq]
    · have hnone := (anyKeyVerifies_eq_false P data signature m').2 (hothers m' hm' heq)
      rw [hv'] at hnone
      cases hnone

/-- C7 at concrete inputs: a signature by key 3 resolves to the second
maintainer, whose block follows one without a validating key, and a signature by
key 2, the second key of the first maintainer, resolves to the first. -/
theorem first_maintainer_returned_witness :
    verifySignature demoPrimitives demoMaintainers demoArmored (3, demoArmored) =
        .ok "bob".toList ∧
      verifySignature demoPrimitives demoMaintainers demoArmored (2, demoArmored) =
        .ok "alice".toList :=
  ⟨(first_maintainer_returned demoPrimitives demoMaintainers demoArmored (3, demoArmored)).1
      [⟨asciiBytes "alice", [1, 2]⟩] ⟨asciiBytes "bob", [3]⟩ [] rfl
      (by simp [demoPrimitives]) ⟨3, by simp, by simp [demoPrimitives]⟩,
    (first_maintainer_returned demoPrimitives demoMaintainers demoArmored (2, demoArmored)).2
      ⟨asciiBytes "alice", [1, 2]⟩ (by simp [demoMaintainers]) 2 (by simp)
      (by simp [demoPrimitives])
      (by
        intro m' hm' hne k' hk'
        simp only [demoMaintainers, List.mem_cons, List.mem_singleton, List.not_mem_nil,
          or_false] at hm'
        rcases hm' with rfl | rfl
        · exact absurd rfl hne
        · simp only [List.mem_singleton] at hk'
          subst hk'
          simp [demoPrimitives])⟩

end

/-! ### The manifest parser -/

/-- C8, as amended (layout A): for a non-empty filename `f` without white space
and a non-empty, even-length text `h` of hexadecimal digits, `parseShasumOutput`
on a manifest whose first matching line is `h`, one or more spaces, `f` returns
the bytes that `h` encodes. -/
theorem layoutA_digest (message f h : QString) (k : Nat) (pre post : List QString)
    (hf : f ≠ []) (hfs : ∀ c ∈ f, isSpace c = false) (hh : h ≠ [])
    (hhex : ∀ c ∈ h, isHexDigit c = true) (heven : h.length % 2 = 0)
    (hsplit : splitRef message = pre ++ (h ++ List.replicate (k + 1) ' ' ++ f) :: post)
    (hpre : ∀ l ∈ pre, endsWith (trimmed l) f = false ∧ startsWith (trimmed l) f = false) :
    parseShasumOutput message f = .ok (hexBytes h) := by
  rw [parseShasumOutput, hsplit, parseLines_skip f pre _ hpre]
  exact parseLines_layoutA f h k post hf hfs hh hhex heven

/-- C8 (amended) at a concrete input: the digest is on the second line, two
spaces before the filename. -/
theorem layoutA_digest_witness :
    parseShasumOutput "00 x.bin\na1b2ff  app.bin\nzz".toList "app.bin".toList =
      .ok [0xa1, 0xb2, 0xff] :=
  layoutA_digest "00 x.bin\na1b2ff  app.bin\nzz".toList "app.bin".toList "a1b2ff".toList 1
    ["00 x.bin".toList] ["zz".toList] (by decide) (by decide) (by decide) (by decide)
    (by decide) (by rfl) (by decide)

/-- C8 as stated fails for the empty text of digits: the line `  app.bin` is,
once trimmed, the filename alone, it has no space and is passed over; the search
goes on to the lines after it, or ends with "hash not found". -/
theorem layoutA_empty_digest_skipped :
    splitRef "  app.bin".toList = [[] ++ List.replicate 2 ' ' ++ "app.bin".toList] ∧
      parseShasumOutput "  app.bin".toList "app.bin".toList = .error .hashNotFound ∧
      hexBytes [] = [] ∧
      parseShasumOutput "  app.bin\nff  app.bin".toList "app.bin".toList = .ok [0xff] :=
  ⟨by rfl, by rfl, by rfl, by rfl⟩

/-- C9, as amended (layout B): for a non-empty filename `f` without white space
and a non-empty, even-length text `h` of hexadecimal digits, `parseShasumOutput`
on a manifest whose first matching line is `f`, one or more spaces, `h`, a line
that does not also end with `f`, returns the bytes that `h` encodes, which is
what it returns for the line `h`, spaces, `f` of layout A. -/
theorem layoutB_digest (message f h : QString) (k : Nat) (pre post : List QString)
    (hf : f ≠ []) (hfs : ∀ c ∈ f, isSpace c = false) (hh : h ≠ [])
    (hhex : ∀ c ∈ h, isHexDigit c = true) (heven : h.length % 2 = 0)
    (hends : endsWith (f ++ List.replicate (k + 1) ' ' ++ h) f = false)
    (hsplit : splitRef message = pre ++ (f ++ List.replicate (k + 1) ' ' ++ h) :: post)
    (hpre : ∀ l ∈ pre, endsWith (trimmed l) f = false ∧ startsWith (trimmed l) f = false) :
    parseShasumOutput message f = .ok (hexBytes h) ∧
      parseShasumOutput message f =
        parseShasumOutput (h ++ List.replicate (k + 1) ' ' ++ f) f := by
  have hB : parseShasumOutput message f = .ok (hexBytes h) := by
    rw [parseShasumOutput, hsplit, parseLines_skip f pre _ hpre]
    exact parseLines_layoutB f h k post hf hfs hh hhex heven hends
  have hnl : ∀ c ∈ h ++ List.replicate (k + 1) ' ' ++ f, c ≠ '\n' := by
    intro c hc
    simp only [List.mem_append, List.mem_replicate] at hc
    rcases hc with (hc | hc) | hc
    · exact ne_newline_of_not_isSpace (isSpace_of_isHexDigit (hhex c hc))
    · rw [hc.2]
      decide
    · exact ne_newline_of_not_isSpace (hfs c hc)
  have hA : parseShasumOutput (h ++ List.replicate (k + 1) ' ' ++ f) f = .ok (hexBytes h) := by
    rw [parseShasumOutput, splitRef_of_no_newline _ hnl]
    exact parseLines_layoutA f h k [] hf hfs hh hhex heven
  exact ⟨hB, hB.trans hA.symm⟩

/-- C9 (amended) at a concrete input: the filename comes first on the second
line. -/
theorem layoutB_digest_witness :
    parseShasumOutput "00 x.bin\napp.bin  a1b2ff\nzz".toList "app.bin".toList =
        .ok [0xa1, 0xb2, 0xff] ∧
      parseShasumOutput "00 x.bin\napp.bin  a1b2ff\nzz".toList "app.bin".toList =
        parseShasumOutput "a1b2ff  app.bin".toList "app.bin".toList :=
  layoutB_digest "00 x.bin\napp.bin  a1b2ff\nzz".toList "app.bin".toList "a1b2ff".toList 1
    ["00 x.bin".toList] ["zz".toList] (by decide) (by decide) (by decide) (by decide)
    (by decide) (by decide) (by rfl) (by decide)

/-- C9 as stated fails in two cases. When the digits end with the filename, the
line ends with the filename too and is read in layout A: for the filename `ab`
the line `ab cdab` yields the byte `ab`, not the bytes `cd ab`. And for the empty
text of digits the line `app.bin  ` is, once trimmed, the filename alone and is
passed over. -/
theorem layoutB_read_as_layoutA :
    splitRef "ab cdab".toList = ["ab".toList ++ List.replicate 1 ' ' ++ "cdab".toList] ∧
      parseShasumOutput "ab cdab".toList "ab".toList = .ok [0xab] ∧
      hexBytes "cdab".toList = [0xcd, 0xab] ∧
      splitRef "app.bin  ".toList = ["app.bin".toList ++ List.replicate 2 ' ' ++ []] ∧
      parseShasumOutput "app.bin  ".toList "app.bin".toList = .error .hashNotFound :=
  ⟨by rfl, by rfl, by rfl, by rfl, by rfl⟩

/-- C10: when no line of the manifest, once trimmed, ends with or starts with
the filename, `parseShasumOutput` fails with "hash not found" and returns no
digest. -/
theorem no_match_hash_not_found (message f : QString)
    (h : ∀ l ∈ splitRef message,
      endsWith (trimmed l) f = false ∧ startsWith (trimmed l) f = false) :
    parseShasumOutput message f = .error .hashNotFound ∧
      (∀ digest, parseShasumOutput message f ≠ .ok digest) ∧
      (UpdaterError.hashNotFound).what = "hash not found" := by
  have e : parseShasumOutput message f = .error .hashNotFound := by
    have := parseLines_skip f (splitRef message) [] h
    rw [List.append_nil] at this
    rw [parseShasumOutput, this]
    rfl
  refine ⟨e, ?_, rfl⟩
  intro digest hd
  rw [e] at hd
  cases hd

/-- C10 at a concrete input: a manifest of three lines, none about `app.bin`. -/
theorem no_match_hash_not_found_witness :
    parseShasumOutput "a1b2  other.bin\n\n  c3d4 app.bin.sig ".toList "app.bin".toList =
      .error .hashNotFound :=
  (no_match_hash_not_found "a1b2  other.bin\n\n  c3d4 app.bin.sig ".toList "app.bin".toList
    (by decide)).1

section
variable {Key Sig : Type}

/-- C12, as amended: when the envelope parses, and for the detached signature
when its blob parses too, a signature that no trusted key validates makes
`verifyParseSignedHahes` fail with "not signed by a maintainer" for every
plaintext and filename; it fails with "hash not found" only when both signatures
were validated and resolved to two different identities; and when the envelope
or, after a validated inline signature, the detached blob does not parse, it
fails with the error of the OpenPGP library, for every filename. -/
theorem plaintext_after_signatures (P : Primitives Key Sig) (ms : List (public_key_block Key))
    (armored detached : QByteArray) :
    (∀ message sig1, P.message_armored armored = .ok message →
      P.from_armored armored = .ok sig1 →
      (∀ m ∈ ms, ∀ k ∈ m.keys, P.verify sig1 message k = false) →
      ∀ filename signers0,
        (verifyParseSignedHahes P ms armored detached filename signers0).1 =
          .error .notSignedByMaintainer) ∧
    (∀ message sig1 sig2, P.message_armored armored = .ok message →
      P.from_armored armored = .ok sig1 → P.from_buffer detached = .ok sig2 →
      (∀ m ∈ ms, ∀ k ∈ m.keys, P.verify sig2 armored k = false) →
      ∀ filename signers0,
        (verifyParseSignedHahes P ms armored detached filename signers0).1 =
          .error .notSignedByMaintainer) ∧
    (∀ filename signers0,
      (verifyParseSignedHahes P ms armored detached filename signers0).1 =
        .error .hashNotFound →
      ∃ message sig1 sig2 id1 id2, P.message_armored armored = .ok message ∧
        P.from_armored armored = .ok sig1 ∧ P.from_buffer detached = .ok sig2 ∧
        verifySignature P ms message sig1 = .ok id1 ∧
        verifySignature P ms armored sig2 = .ok id2 ∧ id1 ≠ id2 ∧
        parseShasumOutput (qstringOfBytes P message) filename = .error .hashNotFound) ∧
    (∀ e, P.message_armored armored = .error e →
      ∀ filename signers0,
        (verifyParseSignedHahes P ms armored detached filename signers0).1 =
          .error (.openpgp e)) ∧
    (∀ message e, P.message_armored armored = .ok message →
      P.from_armored armored = .error e →
      ∀ filename signers0,
        (verifyParseSignedHahes P ms armored detached filename signers0).1 =
          .error (.openpgp e)) ∧
    (∀ message sig1 id1 e, P.message_armored armored = .ok message →
      P.from_armored armored = .ok sig1 → verifySignature P ms message sig1 = .ok id1 →
      P.from_buffer detached = .error e →
      ∀ filename signers0,
        (verifyParseSignedHahes P ms armored detached filename signers0).1 =
          .error (.openpgp e)) := by
  refine ⟨?_, ?_, ?_, ?_, ?_, ?_⟩
  · intro message sig1 hm h1 hnone filename signers0
    rw [verifyParse_inline_error P ms armored detached filename signers0 message sig1 _ hm h1
      (verifySignature_none P ms message sig1 hnone)]
  · intro message sig1 sig2 hm h1 h2 hnone filename signers0
    cases hA : verifySignature P ms message sig1 with
    | error e =>
      rw [verifyParse_inline_error P ms armored detached filename signers0 message sig1 e hm h1
        hA, ((verifySignature_error P ms message sig1 e).1 hA).1]
    | ok id1 =>
      rw [verifyParse_detached_error P ms armored detached filename signers0 message sig1 sig2
        id1 _ hm h1 hA h2 (verifySignature_none P ms armored sig2 hnone)]
  · intro filename signers0 h
    cases hm : P.message_armored armored with
    | error e =>
      rw [verifyParse_message_error P ms armored detached filename signers0 e hm] at h
      cases h
    | ok message =>
      cases h1 : P.from_armored armored with
      | error e =>
        rw [verifyParse_armored_error P ms armored detached filename signers0 message e hm h1]
          at h
        cases h
      | ok sig1 =>
        cases hA : verifySignature P ms message sig1 with
        | error e =>
          rw [verifyParse_inline_error P ms armored detached filename signers0 message sig1 e
            hm h1 hA] at h
          have := ((verifySignature_error P ms message sig1 e).1 hA).1
          subst this
          cases h
        | ok id1 =>
          cases h2 : P.from_buffer detached with
          | error e =>
            rw [verifyParse_buffer_error P ms armored detached filename signers0 message sig1
              id1 e hm h1 hA h2] at h
            cases h
          | ok sig2 =>
            cases hB : verifySignature P ms armored sig2 with
            | error e =>
              rw [verifyParse_detached_error P ms armored detached filename signers0 message
                sig1 sig2 id1 e hm h1 hA h2 hB] at h
              have := ((verifySignature_error P ms armored sig2 e).1 hB).1
              subst this
              cases h
            | ok id2 =>
              rw [verifyParse_both_ok P ms armored detached filename signers0 message sig1 sig2
                id1 id2 hm h1 hA h2 hB] at h
              by_cases hid : id1 = id2
              · simp only [hid, if_true] at h
                cases h
              · simp only [hid, if_false] at h
                exact ⟨message, sig1, sig2, id1, id2, rfl, rfl, rfl, hA, hB, hid, h⟩
  · intro e hm filename signers0
    rw [verifyParse_message_error P ms armored detached filename signers0 e hm]
  · intro message e hm h1 filename signers0
    rw [verifyParse_armored_error P ms armored detached filename signers0 message e hm h1]
  · intro message sig1 id1 e hm h1 hA h2 filename signers0
    rw [verifyParse_buffer_error P ms armored detached filename signers0 message sig1 id1 e hm
      h1 hA h2]

/-- C12 (amended) at concrete inputs: an inline signature by a key that no maintainer
holds, and a detached signature by such a key, both with a plaintext that lists
the file. -/
theorem plaintext_after_signatures_witness :
    (verifyParseSignedHahes demoPrimitives demoMaintainers demoArmoredUnknown demoDetached
        "app.bin".toList ([], [])).1 = .error .notSignedByMaintainer ∧
      (verifyParseSignedHahes demoPrimitives demoMaintainers demoArmored demoDetachedUnknown
        "app.bin".toList ([], [])).1 = .error .notSignedByMaintainer :=
  ⟨(plaintext_after_signatures demoPrimitives demoMaintainers demoArmoredUnknown
      demoDetached).1 demoManifest (9, demoManifest) rfl rfl
      (by
        intro m hm k hk
        simp only [demoMaintainers, List.mem_cons, List.mem_singleton, List.not_mem_nil,
          or_false] at hm
        rcases hm with rfl | rfl <;> simp at hk <;> rcases hk with rfl | rfl <;>
          simp [demoPrimitives])
      "app.bin".toList ([], []),
    (plaintext_after_signatures demoPrimitives demoMaintainers demoArmored
      demoDetachedUnknown).2.1 demoManifest (1, demoManifest) (9, demoArmored) rfl rfl rfl
      (by
        intro m hm k hk
        simp only [demoMaintainers, List.mem_cons, List.mem_singleton, List.not_mem_nil,
          or_false] at hm
        rcases hm with rfl | rfl <;> simp at hk <;> rcases hk with rfl | rfl <;>
          simp [demoPrimitives])
      "app.bin".toList ([], [])⟩

/-- C12 as stated fails when a blob does not parse. With an empty envelope, the
detached signature `[9]` parses and no trusted key validates it, yet the call
fails with the error of the OpenPGP library, not with "not signed by a
maintainer"; and with a valid envelope and an empty detached blob it fails with
the library's "signature not found". -/
theorem unparsed_blob_library_error :
    demoPrimitives.from_buffer [9] = .ok (9, []) ∧
      verifySignature demoPrimitives demoMaintainers [] (9, []) =
        .error .notSignedByMaintainer ∧
      verifyParseSignedHahes demoPrimitives demoMaintainers [] [9] "app.bin".toList ([], []) =
        (.error (.openpgp "armored block not found"), ([], [])) ∧
      verifyParseSignedHahes demoPrimitives demoMaintainers demoArmored [] "app.bin".toList
        ([], []) = (.error (.openpgp "signature not found"), ("alice".toList, [])) :=
  ⟨by rfl, by rfl, by rfl, by rfl⟩

end

section
variable {Key Sig : Type}

/-- C13, as amended: `verifySignaturesAndHashSum` yields identities only on full
success. `verifyParseSignedHahes` leaves the caller's `signers` as it was when
it fails before the inline signature is validated; once the inline signature is
validated `signers.first` holds its signer, and once the detached signature is
validated too `signers.second` holds its signer, also when the call then fails.
`fetchSignedHash` leaves `signers` as it was when a fetch fails, and otherwise
as `verifyParseSignedHahes` leaves it. -/
theorem signers_after_failure (P : Primitives Key Sig) (ms : List (public_key_block Key))
    (armored detached : QByteArray) (filename : QString) (signers0 : Signers) :
    (∀ signers binary,
      verifySignaturesAndHashSum P ms armored detached filename binary = .ok signers →
      verifyParseSignedHahes P ms armored detached filename ([], []) =
        (.ok (getHash P binary), signers)) ∧
    ((∀ message sig1, P.message_armored armored = .ok message →
        P.from_armored armored = .ok sig1 →
        ∀ id1, verifySignature P ms message sig1 ≠ .ok id1) →
      ∃ e, verifyParseSignedHahes P ms armored detached filename signers0 =
        (.error e, signers0)) ∧
    (∀ message sig1 id1, P.message_armored armored = .ok message →
      P.from_armored armored = .ok sig1 → verifySignature P ms message sig1 = .ok id1 →
      ((∀ sig2, P.from_buffer detached = .ok sig2 →
          ∀ id2, verifySignature P ms armored sig2 ≠ .ok id2) →
        ∃ e, verifyParseSignedHahes P ms armored detached filename signers0 =
          (.error e, (id1, signers0.2))) ∧
      (∀ sig2 id2, P.from_buffer detached = .ok sig2 →
        verifySignature P ms armored sig2 = .ok id2 →
        (verifyParseSignedHahes P ms armored detached filename signers0).2 = (id1, id2))) ∧
    (∀ hashFromDns, P.get hashesTxtUrl = .ok armored → P.get hashesTxtSigUrl = .ok detached →
      (fetchSignedHash P ms filename hashFromDns signers0).2 =
        (verifyParseSignedHahes P ms armored detached filename signers0).2) ∧
    (∀ hashFromDns,
      ((∃ e, P.get hashesTxtUrl = .error e) ∨ (∃ e, P.get hashesTxtSigUrl = .error e)) →
      ∃ e, fetchSignedHash P ms filename hashFromDns signers0 = (.error e, signers0)) := by
  refine ⟨?_, ?_, ?_, ?_, ?_⟩
  · intro signers binary h
    exact (verifySignaturesAndHashSum_ok P ms armored detached filename binary signers).1 h
  · intro hno
    cases hm : P.message_armored armored with
    | error e => exact ⟨_, verifyParse_message_error P ms armored detached filename signers0 e hm⟩
    | ok message =>
      cases h1 : P.from_armored armored with
      | error e =>
        exact ⟨_, verifyParse_armored_error P ms armored detached filename signers0 message e
          hm h1⟩
      | ok sig1 =>
        cases hA : verifySignature P ms message sig1 with
        | error e =>
          exact ⟨_, verifyParse_inline_error P ms armored detached filename signers0 message
            sig1 e hm h1 hA⟩
        | ok id1 => exact absurd hA (hno message sig1 hm h1 id1)
  · intro message sig1 id1 hm h1 hA
    constructor
    · intro hno
      cases h2 : P.from_buffer detached with
      | error e =>
        exact ⟨_, verifyParse_buffer_error P ms armored detached filename signers0 message sig1
          id1 e hm h1 hA h2⟩
      | ok sig2 =>
        cases hB : verifySignature P ms armored sig2 with
        | error e =>
          exact ⟨_, verifyParse_detached_error P ms armored detached filename signers0 message
            sig1 sig2 id1 e hm h1 hA h2 hB⟩
        | ok id2 => exact absurd hB (hno sig2 h2 id2)
    · intro sig2 id2 h2 hB
      rw [verifyParse_both_ok P ms armored detached filename signers0 message sig1 sig2 id1 id2
        hm h1 hA h2 hB]
  · intro hashFromDns hget hgetSig
    simp only [fetchSignedHash, hget, hgetSig]
    rcases verifyParseSignedHahes P ms armored detached filename signers0 with ⟨r, s⟩
    cases r with
    | error e => rfl
    | ok signedHash =>
      by_cases hh : signedHash = hashFromDns
      · simp [hh]
      · simp [hh]
  · rintro hashFromDns (⟨e, he⟩ | ⟨e, he⟩)
    · exact ⟨.network e, by simp only [fetchSignedHash, he]⟩
    · cases hg : P.get hashesTxtUrl with
      | error e' => exact ⟨.network e', by simp only [fetchSignedHash, hg]⟩
      | ok txt => exact ⟨.network e, by simp only [fetchSignedHash, hg, he]⟩

/-- C13 (amended) at a concrete input: an envelope signed by a key that no
maintainer holds leaves the pair as it was. -/
theorem signers_after_failure_witness :
    ∃ e, verifyParseSignedHahes demoPrimitives demoMaintainers demoArmoredUnknown demoDetached
      "app.bin".toList ("x".toList, "y".toList) = (.error e, ("x".toList, "y".toList)) :=
  (signers_after_failure demoPrimitives demoMaintainers demoArmoredUnknown demoDetached
    "app.bin".toList ("x".toList, "y".toList)).2.1
    (by
      intro message sig1 hm h1 id1 hA
      cases hm
      cases h1
      cases hA)

/-- C13 as stated fails: when the inline signature is validated and the detached
one is signed by a key that no maintainer holds, the call fails and
`signers.first` holds the first signer; when both are signed by one maintainer,
the call fails and both components hold that signer; and `fetchSignedHash`
failing on the DNS hash leaves both signers in the pair. -/
theorem signers_overwritten_on_failure :
    verifyParseSignedHahes demoPrimitives demoMaintainers demoArmored demoDetachedUnknown
        "app.bin".toList ("x".toList, "y".toList) =
        (.error .notSignedByMaintainer, ("alice".toList, "y".toList)) ∧
      verifyParseSignedHahes demoPrimitives demoMaintainers demoArmored demoDetachedSame
        "app.bin".toList ("x".toList, "y".toList) =
        (.error .signersIdentical, ("alice".toList, "alice".toList)) ∧
      fetchSignedHash demoPrimitives demoMaintainers "app.bin".toList [] ("x".toList, "y".toList) =
        (.error .dnsHashMismatch, ("alice".toList, "bob".toList)) :=
  ⟨by rfl, by rfl, by rfl⟩

/-- C17: whenever `verifySignaturesAndHashSum` succeeds, the hash extracted from
the manifest is 32 bytes long, the size of the buffer of `getHash`; when the
hash that `verifyParseSignedHahes` returns has another length, the call fails
with "hash sum mismatch". -/
theorem signed_hash_has_32_bytes (P : Primitives Key Sig) (ms : List (public_key_block Key))
    (armored detached : QByteArray) (filename : QString) (binary : QByteArray) :
    (∀ signers, verifySignaturesAndHashSum P ms armored detached filename binary = .ok signers →
      ∃ message hash, P.message_armored armored = .ok message ∧
        parseShasumOutput (qstringOfBytes P message) filename = .ok hash ∧
        verifyParseSignedHahes P ms armored detached filename ([], []) = (.ok hash, signers) ∧
        hash.length = 32) ∧
    (∀ signers0 hash signers,
      verifyParseSignedHahes P ms armored detached filename signers0 = (.ok hash, signers) →
      hash.length ≠ 32 →
      verifySignaturesAndHashSum P ms armored detached filename binary =
        .error .hashSumMismatch) ∧
    (getHash P binary).length = 32 := by
  refine ⟨?_, ?_, getHash_length P binary⟩
  · intro signers h
    have hv := (verifySignaturesAndHashSum_ok P ms armored detached filename binary signers).1 h
    obtain ⟨message, _, _, hm, _, _, _, _, _, hp⟩ :=
      (verifyParseSignedHahes_ok P ms armored detached filename ([], []) signers _).1 hv
    exact ⟨message, getHash P binary, hm, hp, hv, getHash_length P binary⟩
  · intro signers0 hash signers h hlen
    have h' : verifyParseSignedHahes P ms armored detached filename ([], []) =
        (.ok hash, signers) :=
      (verifyParseSignedHahes_ok P ms armored detached filename ([], []) signers hash).2
        ((verifyParseSignedHahes_ok P ms armored detached filename signers0 signers hash).1 h)
    refine verifySignaturesAndHashSum_mismatch P ms armored detached filename binary hash
      signers h' ?_
    intro heq
    rw [heq, getHash_length] at hlen
    exact hlen rfl

/-- C17 at a concrete input: a list whose digest for the file is cut to two bytes
passes the signature checks and is refused at the comparison. -/
theorem signed_hash_has_32_bytes_witness :
    verifyParseSignedHahes demoPrimitives demoMaintainers demoShortArmored demoShortDetached
        "app.bin".toList ([], []) = (.ok [7, 7], ("alice".toList, "bob".toList)) ∧
      verifySignaturesAndHashSum demoPrimitives demoMaintainers demoShortArmored
        demoShortDetached "app.bin".toList [7] = .error .hashSumMismatch :=
  ⟨by rfl,
    (signed_hash_has_32_bytes demoPrimitives demoMaintainers demoShortArmored demoShortDetached
      "app.bin".toList [7]).2.1 ([], []) [7, 7] ("alice".toList, "bob".toList) (by rfl)
      (by decide)⟩

end

section
variable {Key Sig : Type}

/-! ### Order of the maintainers and of their keys -/

theorem anyKeyVerifies_keysPermuted (P : Primitives Key Sig) (data : QByteArray)
    (signature : Sig) {m m' : public_key_block Key} (h : keysPermuted m m') :
    anyKeyVerifies P data signature m' = anyKeyVerifies P data signature m := by
  rw [Bool.eq_iff_iff, anyKeyVerifies_eq_true, anyKeyVerifies_eq_true]
  constructor
  · rintro ⟨k, hk, hv⟩
    exact ⟨k, h.2.mem_iff.1 hk, hv⟩
  · rintro ⟨k, hk, hv⟩
    exact ⟨k, h.2.mem_iff.2 hk, hv⟩

theorem identity_keysPermuted (P : Primitives Key Sig) {m m' : public_key_block Key}
    (h : keysPermuted m m') : identity P m' = identity P m := by
  rw [identity, identity, h.1]

theorem forall₂_mem_left {ms mid : List (public_key_block Key)}
    (h : List.Forall₂ keysPermuted ms mid) :
    ∀ m ∈ ms, ∃ m' ∈ mid, keysPermuted m m' := by
  induction h with
  | nil => simp
  | cons hab _ ih =>
    intro m hm
    rcases List.mem_cons.1 hm with rfl | hm
    · exact ⟨_, by simp, hab⟩
    · obtain ⟨m', hm', hp⟩ := ih m hm
      exact ⟨m', by simp [hm'], hp⟩

theorem forall₂_mem_right {ms mid : List (public_key_block Key)}
    (h : List.Forall₂ keysPermuted ms mid) :
    ∀ m' ∈ mid, ∃ m ∈ ms, keysPermuted m m' := by
  induction h with
  | nil => simp
  | cons hab _ ih =>
    intro m' hm'
    rcases List.mem_cons.1 hm' with rfl | hm'
    · exact ⟨_, by simp, hab⟩
    · obtain ⟨m, hm, hp⟩ := ih m' hm'
      exact ⟨m, by simp [hm], hp⟩

theorem verifySignature_reordered (P : Primitives Key Sig)
    (ms ms' : List (public_key_block Key)) (data : QByteArray) (signature : Sig)
    (hnc : ∀ m ∈ ms, ∀ m' ∈ ms, anyKeyVerifies P data signature m = true →
      anyKeyVerifies P data signature m' = true → identity P m = identity P m')
    (hre : reordered ms ms') :
    verifySignature P ms data signature = verifySignature P ms' data signature := by
  obtain ⟨mid, hf, hperm⟩ := hre
  by_cases h : ∃ m ∈ ms, anyKeyVerifies P data signature m = true
  · obtain ⟨m, hm, hv⟩ := h
    obtain ⟨m1, hm1, hv1, hres⟩ := verifySignature_of_mem P ms data signature m hm hv
    obtain ⟨m', hm', hp⟩ := forall₂_mem_left hf m hm
    have hv' : anyKeyVerifies P data signature m' = true := by
      rw [anyKeyVerifies_keysPermuted P data signature hp]
      exact hv
    obtain ⟨m2, hm2, hv2, hres'⟩ :=
      verifySignature_of_mem P ms' data signature m' (hperm.mem_iff.1 hm') hv'
    obtain ⟨m0, hm0, hp0⟩ := forall₂_mem_right hf m2 (hperm.mem_iff.2 hm2)
    have hv0 : anyKeyVerifies P data signature m0 = true := by
      rw [← anyKeyVerifies_keysPermuted P data signature hp0]
      exact hv2
    rw [hres, hres', identity_keysPermuted P hp0, hnc m1 hm1 m0 hm0 hv1 hv0]
  · have hnone : ∀ m ∈ ms, anyKeyVerifies P data signature m = false := by
      intro m hm
      by_contra hc
      exact h ⟨m, hm, by simpa using hc⟩
    have hnone' : ∀ m' ∈ ms', anyKeyVerifies P data signature m' = false := by
      intro m' hm'
      obtain ⟨m, hm, hp⟩ := forall₂_mem_right hf m' (hperm.mem_iff.2 hm')
      rw [anyKeyVerifies_keysPermuted P data signature hp]
      exact hnone m hm
    rw [(verifySignature_error P ms data signature _).2 ⟨rfl, hnone⟩,
      (verifySignature_error P ms' data signature _).2 ⟨rfl, hnone'⟩]

/-- C15: when no data and signature are validated by keys of two maintainers
with different identities, `verifySignature(data, signature)` gives the same
result, identity or failure, for the maintainer list in any other order with
the keys of each maintainer in any other order. -/
theorem verifySignature_order_independent (P : Primitives Key Sig)
    (ms ms' : List (public_key_block Key)) (data : QByteArray) (signature : Sig)
    (hnc : keysNonColliding P ms) (hre : reordered ms ms') :
    verifySignature P ms data signature = verifySignature P ms' data signature :=
  verifySignature_reordered P ms ms' data signature (hnc data signature) hre

/-- C15 at a concrete input: the two maintainers swapped and the keys of the
first one swapped. -/
theorem verifySignature_order_independent_witness :
    verifySignature demoPrimitives demoMaintainers demoArmored (2, demoArmored) =
        verifySignature demoPrimitives demoMaintainersReordered demoArmored (2, demoArmored) ∧
      verifySignature demoPrimitives demoMaintainersReordered demoArmored (2, demoArmored) =
        .ok "alice".toList :=
  ⟨verifySignature_order_independent demoPrimitives demoMaintainers demoMaintainersReordered
      demoArmored (2, demoArmored) demoMaintainers_nonColliding
      ⟨[⟨asciiBytes "alice", [2, 1]⟩, ⟨asciiBytes "bob", [3]⟩],
        List.Forall₂.cons ⟨rfl, List.Perm.swap 1 2 []⟩
          (List.Forall₂.cons ⟨rfl, List.Perm.refl _⟩ List.Forall₂.nil),
        List.Perm.swap _ _ []⟩,
    by rfl⟩

end

/-! ### Tokens, first match and padding -/

/-- C11, as amended: for a manifest whose first matching line contains a space,
`parseShasumOutput` reports no parse failure, whatever the digest token is: it
returns what `QByteArray::fromHex` decodes from the token, the text before the
first space when the line ends with the filename and the text after the last
space otherwise. Bytes that are no hexadecimal digits are ignored, `n` digits
give `(n + 1) / 2` bytes, and the only failure of `parseShasumOutput` is "hash
not found". -/
theorem malformed_digest_decoded (message f L : QString) (pre post : List QString)
    (hsplit : splitRef message = pre ++ L :: post)
    (hpre : ∀ l ∈ pre, endsWith (trimmed l) f = false ∧ startsWith (trimmed l) f = false)
    (hmatch : endsWith (trimmed L) f = true ∨ startsWith (trimmed L) f = true)
    (hsp : ' ' ∈ trimmed L) :
    (∃ token, parseShasumOutput message f = .ok (fromHex (toUtf8 token)) ∧
      (∃ l r, trimmed L = l ++ ' ' :: r ∧
        ((endsWith (trimmed L) f = true ∧ ' ' ∉ l ∧ token = l) ∨
         (endsWith (trimmed L) f = false ∧ ' ' ∉ r ∧ token = r))) ∧
      fromHex (toUtf8 token) = fromHex ((toUtf8 token).filter isHexByte) ∧
      (fromHex (toUtf8 token)).length = (((toUtf8 token).filter isHexByte).length + 1) / 2) ∧
    (∀ message' f' e, parseShasumOutput message' f' = .error e → e = .hashNotFound) := by
  refine ⟨?_, fun message' f' e h => parseLines_error f' _ e h⟩
  rw [parseShasumOutput, hsplit, parseLines_skip f pre _ hpre]
  by_cases hends : endsWith (trimmed L) f = true
  · obtain ⟨l, r, ht, hl⟩ := exists_first_space _ hsp
    exact ⟨l, parseLines_endsWith f L post l r hends ht hl, ⟨l, r, ht, Or.inl ⟨hends, hl, rfl⟩⟩,
      fromHex_filter _, fromHex_length _⟩
  · have hends' : endsWith (trimmed L) f = false := by simpa using hends
    have hstarts : startsWith (trimmed L) f = true := by
      rcases hmatch with h | h
      · exact absurd h hends
      · exact h
    obtain ⟨l, r, ht, hr⟩ := exists_last_space _ hsp
    exact ⟨r, parseLines_startsWith f L post l r hends' hstarts ht hr,
      ⟨l, r, ht, Or.inr ⟨hends', hr, rfl⟩⟩, fromHex_filter _, fromHex_length _⟩

/-- C11 (amended) at a concrete input: a token with three letters that are no
hexadecimal digits. -/
theorem malformed_digest_decoded_witness :
    ∃ token, parseShasumOutput "00 x.bin\nzz1g2  app.bin".toList "app.bin".toList =
        .ok (fromHex (toUtf8 token)) ∧
      (∃ l r, trimmed "zz1g2  app.bin".toList = l ++ ' ' :: r ∧
        ((endsWith (trimmed "zz1g2  app.bin".toList) "app.bin".toList = true ∧ ' ' ∉ l ∧
            token = l) ∨
         (endsWith (trimmed "zz1g2  app.bin".toList) "app.bin".toList = false ∧ ' ' ∉ r ∧
            token = r))) ∧
      fromHex (toUtf8 token) = fromHex ((toUtf8 token).filter isHexByte) ∧
      (fromHex (toUtf8 token)).length = (((toUtf8 token).filter isHexByte).length + 1) / 2 :=
  (malformed_digest_decoded "00 x.bin\nzz1g2  app.bin".toList "app.bin".toList
    "zz1g2  app.bin".toList ["00 x.bin".toList] [] (by rfl) (by decide) (by decide)
    (by decide)).1

/-- C11 as stated fails: a token with characters that are no hexadecimal digits,
and a token with an odd number of digits, are decoded and returned; no parse
failure is reported. -/
theorem malformed_digest_not_reported :
    parseShasumOutput "zz1g2  app.bin".toList "app.bin".toList = .ok [0x12] ∧
      parseShasumOutput "abc  app.bin".toList "app.bin".toList = .ok [0x0a, 0xbc] ∧
      parseShasumOutput "app.bin  xyz".toList "app.bin".toList = .ok [] :=
  ⟨by rfl, by rfl, by rfl⟩

/-- C14: in a manifest `P + L + "\n" + S` where no line of `P` matches the
filename and the line `L`, once trimmed, ends with or starts with the filename
and contains a space, `parseShasumOutput` returns the digest taken from `L`,
which is what it returns for `L` alone, whatever `S` is: the text before the
first space when `L` ends with the filename, the text after the last space
otherwise. -/
theorem first_match_wins (f L S : QString) (pre : List QString)
    (hlines : ∀ l ∈ pre, ∀ c ∈ l, c ≠ '\n')
    (hpre : ∀ l ∈ pre, endsWith (trimmed l) f = false ∧ startsWith (trimmed l) f = false)
    (hL : ∀ c ∈ L, c ≠ '\n')
    (hmatch : endsWith (trimmed L) f = true ∨ startsWith (trimmed L) f = true)
    (hsp : ' ' ∈ trimmed L) :
    parseShasumOutput (closedLines pre ++ (L ++ '\n' :: S)) f = parseShasumOutput L f ∧
    (endsWith (trimmed L) f = true →
      ∃ l r, trimmed L = l ++ ' ' :: r ∧ ' ' ∉ l ∧
        parseShasumOutput (closedLines pre ++ (L ++ '\n' :: S)) f =
          .ok (fromHex (toUtf8 l))) ∧
    (endsWith (trimmed L) f = false →
      ∃ l r, trimmed L = l ++ ' ' :: r ∧ ' ' ∉ r ∧
        parseShasumOutput (closedLines pre ++ (L ++ '\n' :: S)) f =
          .ok (fromHex (toUtf8 r))) := by
  have hm : parseShasumOutput (closedLines pre ++ (L ++ '\n' :: S)) f =
      parseLines f (L :: splitRef S) := by
    rw [parseShasumOutput, splitRef_closedLines pre _ hlines, splitRef_line L S hL,
      parseLines_skip f pre _ hpre]
  have hone : parseShasumOutput L f = parseLines f [L] := by
    rw [parseShasumOutput, splitRef_of_no_newline L hL]
  by_cases hends : endsWith (trimmed L) f = true
  · obtain ⟨l, r, ht, hl⟩ := exists_first_space _ hsp
    have e := parseLines_endsWith f L (splitRef S) l r hends ht hl
    refine ⟨?_, fun _ => ⟨l, r, ht, hl, hm.trans e⟩, fun h => ?_⟩
    · rw [hm, hone, e, parseLines_endsWith f L [] l r hends ht hl]
    · rw [hends] at h
      cases h
  · have hends' : endsWith (trimmed L) f = false := by simpa using hends
    have hstarts : startsWith (trimmed L) f = true := by
      rcases hmatch with h | h
      · exact absurd h hends
      · exact h
    obtain ⟨l, r, ht, hr⟩ := exists_last_space _ hsp
    have e := parseLines_startsWith f L (splitRef S) l r hends' hstarts ht hr
    refine ⟨?_, fun h => absurd h hends, fun _ => ⟨l, r, ht, hr, hm.trans e⟩⟩
    rw [hm, hone, e, parseLines_startsWith f L [] l r hends' hstarts ht hr]

/-- C14 at a concrete input: the entry of `other-app.bin` comes before the entry
of `app.bin` and its digest is returned for `app.bin`. -/
theorem first_match_wins_witness :
    parseShasumOutput "00 x.bin\nffee  other-app.bin\na1b2  app.bin".toList "app.bin".toList =
        parseShasumOutput "ffee  other-app.bin".toList "app.bin".toList ∧
      parseShasumOutput "00 x.bin\nffee  other-app.bin\na1b2  app.bin".toList "app.bin".toList =
        .ok [0xff, 0xee] :=
  ⟨(first_match_wins "app.bin".toList "ffee  other-app.bin".toList "a1b2  app.bin".toList
      ["00 x.bin".toList] (by decide) (by decide) (by decide) (by decide) (by decide)).1,
    by rfl⟩

/-- C16: when the lines of two manifests differ, one by one, only in white space
other than newlines at their start and at their end, `parseShasumOutput` gives
the same result for both, the same digest or the same failure. -/
theorem padding_ignored (message message' f : QString)
    (h : List.Forall₂ paddedAlike (splitRef message) (splitRef message')) :
    parseShasumOutput message f = parseShasumOutput message' f := by
  rw [parseShasumOutput, parseShasumOutput]
  exact parseLines_trimmed f (h.imp (fun _ _ hp => trimmed_paddedAlike hp))

/-- C16 at a concrete input: a tab and a space before the first line, a carriage
return after it, spaces around the second line. -/
theorem padding_ignored_witness :
    parseShasumOutput "a1b2  app.bin\nzz".toList "app.bin".toList =
        parseShasumOutput "\t a1b2  app.bin\r\n zz  ".toList "app.bin".toList ∧
      parseShasumOutput "\t a1b2  app.bin\r\n zz  ".toList "app.bin".toList =
        .ok [0xa1, 0xb2] :=
  ⟨padding_ignored "a1b2  app.bin\nzz".toList "\t a1b2  app.bin\r\n zz  ".toList
      "app.bin".toList
      (List.Forall₂.cons
        ⟨"a1b2  app.bin".toList, [], [], "\t ".toList, "\r".toList,
          by unfold isPadding; decide, by unfold isPadding; decide,
          by unfold isPadding; decide, by unfold isPadding; decide, rfl, rfl⟩
        (List.Forall₂.cons
          ⟨"zz".toList, [], [], " ".toList, "  ".toList,
            by unfold isPadding; decide, by unfold isPadding; decide,
            by unfold isPadding; decide, by unfold isPadding; decide, rfl, rfl⟩
          List.Forall₂.nil)),
    by rfl⟩

end Updater
